import Mathlib

/-!
Verification of the portfolio terminal emulator (parser, virtual
filesystem, command handlers, executor) against its specification.

The JavaScript sources are shallowly embedded: JS strings are Lean
`String`s (manipulated through their `List Char` data where that keeps
proofs tractable), JS exceptions are `Except String`, and the mutable
`VirtualFilesystem` object is threaded as explicit state.  JS library
primitives used by the source (`String.prototype.split`, `Array.join`,
`trim`, `startsWith`, `parseInt`, …) are embedded as `js*` helper
functions with JS semantics.
-/

set_option maxRecDepth 10000

-- ============================================================================
-- JS string primitives
-- ============================================================================

/-- The JS whitespace class (`\s`, and the set trimmed by `trim`):
ASCII whitespace plus NBSP and the BOM/ZWNBSP. -/
def jsWhitespace (c : Char) : Bool :=
  c = ' ' || c = '\t' || c = '\n' || c = '\r' ||
  c = (Char.ofNat 0x0b) || c = (Char.ofNat 0x0c) ||
  c = (Char.ofNat 0xa0) || c = (Char.ofNat 0xfeff)

/-- `String.prototype.trim` on character lists. -/
def trimList (l : List Char) : List Char :=
  ((l.dropWhile jsWhitespace).reverse.dropWhile jsWhitespace).reverse

/-- `String.prototype.trim`. -/
def jsTrim (s : String) : String := String.mk (trimList s.data)

/-- `String.prototype.split` with a single-character separator
(JS splits at every occurrence; `"".split(c)` is `[""]`). -/
def jsSplit (s : String) (sep : Char) : List String :=
  (s.data.splitOn sep).map String.mk

/-- `Array.prototype.join` with a string separator. -/
def jsJoin (sep : String) (xs : List String) : String :=
  String.mk (List.intercalate sep.data (xs.map String.data))

/-- Whether `p` is a leading run of `l`. -/
def startsWithL : List Char → List Char → Bool
  | [], _ => true
  | _ :: _, [] => false
  | p :: ps, c :: cs => p = c && startsWithL ps cs

/-- `String.prototype.startsWith`. -/
def jsStartsWith (s pre : String) : Bool := startsWithL pre.data s.data

/-- Whether `pat` occurs as a contiguous run inside `l`
(`RegExp.prototype.test` for a regex with no metacharacters). -/
def containsL (pat : List Char) : List Char → Bool
  | [] => startsWithL pat []
  | c :: rest => startsWithL pat (c :: rest) || containsL pat rest

/-- `new RegExp(pat).test line` for a pattern `pat` without regex
metacharacters: plain substring search. -/
def regexLitTest (pat : String) (line : String) : Bool :=
  containsL pat.data line.data

/-- `parseInt(s, 10)`: skip leading whitespace, optional sign, then a
maximal digit run (`none` when there is no digit, trailing characters
ignored). -/
def jsParseInt (s : String) : Option Int :=
  let l := s.data.dropWhile jsWhitespace
  let (neg, l) :=
    match l with
    | '-' :: rest => (true, rest)
    | '+' :: rest => (false, rest)
    | l => (false, l)
  let digits := l.takeWhile Char.isDigit
  if digits = [] then none
  else
    let v : Nat := digits.foldl (fun acc c => acc * 10 + (c.toNat - '0'.toNat)) 0
    some (if neg then -(v : Int) else (v : Int))

-- ============================================================================
-- CommandResult  (parser.js)
-- ============================================================================

/-- `CommandResult` from `parser.js`: output text, success flag, numeric
exit code. -/
structure CommandResult where
  output : String
  success : Bool
  exitCode : Nat
deriving DecidableEq, Repr

/-- `CommandResult.success(output)` — exit code 0. -/
def CommandResult.mkSuccess (output : String) : CommandResult :=
  ⟨output, true, 0⟩

/-- `CommandResult.error(message)` with the default exit code 1. -/
def CommandResult.mkError (msg : String) : CommandResult :=
  ⟨msg, false, 1⟩

-- ============================================================================
-- Tokenizer  (parser.js, parseCommandLine)
-- ============================================================================

/-- Flush the in-progress token: JS pushes `current` only when nonempty. -/
def pushTok (cur : List Char) (toks : List String) : List String :=
  if cur = [] then toks else toks ++ [String.mk cur]

/-- The character loop of `parseCommandLine`: `inS` and `inD` are the
single and double quote states, `cur` the current token, `toks` the
emitted tokens.  The JS `escaped` flag is equivalent to consuming the
character after a backslash in the same step, and the `i++` lookahead of
the `>>` case to matching two characters at once. -/
def parseCommandLineAux : List Char → Bool → Bool →
    List Char → List String → List String
  | [], _, _, cur, toks => pushTok cur toks
  | '\\' :: [], _, _, cur, toks => pushTok cur toks
  | '\\' :: c2 :: rest2, inS, inD, cur, toks =>
    parseCommandLineAux rest2 inS inD (cur ++ [c2]) toks
  | '\'' :: rest, inS, inD, cur, toks =>
    if !inD then parseCommandLineAux rest (!inS) inD cur toks
    else parseCommandLineAux rest inS inD (cur ++ ['\'']) toks
  | '"' :: rest, inS, inD, cur, toks =>
    if !inS then parseCommandLineAux rest inS (!inD) cur toks
    else parseCommandLineAux rest inS inD (cur ++ ['"']) toks
  | ' ' :: rest, inS, inD, cur, toks =>
    if !inS && !inD then parseCommandLineAux rest inS inD [] (pushTok cur toks)
    else parseCommandLineAux rest inS inD (cur ++ [' ']) toks
  | '|' :: rest, inS, inD, cur, toks =>
    if !inS && !inD then
      parseCommandLineAux rest inS inD [] (pushTok cur toks ++ ["|"])
    else parseCommandLineAux rest inS inD (cur ++ ['|']) toks
  | '>' :: '>' :: rest2, inS, inD, cur, toks =>
    if !inS && !inD then
      parseCommandLineAux rest2 inS inD [] (pushTok cur toks ++ [">>"])
    else
      -- quoted: the first '>' is appended and the second, still quoted,
      -- is appended by the next step; the two steps are fused here
      parseCommandLineAux rest2 inS inD (cur ++ ['>', '>']) toks
  | '>' :: rest, inS, inD, cur, toks =>
    if !inS && !inD then
      parseCommandLineAux rest inS inD [] (pushTok cur toks ++ [">"])
    else parseCommandLineAux rest inS inD (cur ++ ['>']) toks
  | c :: rest, inS, inD, cur, toks =>
    parseCommandLineAux rest inS inD (cur ++ [c]) toks

/-- `parseCommandLine` from `parser.js`. -/
def parseCommandLine (line : String) : List String :=
  parseCommandLineAux line.data false false [] []

-- ============================================================================
-- Redirect parsing  (parser.js, parseRedirect)
-- ============================================================================

/-- A parsed redirect: command text, destination text, append mode. -/
structure Redirect where
  command : String
  file : String
  append : Bool
deriving DecidableEq, Repr

/-- Locate the first `>>`/`>` token: returns the tokens before it, the
append flag, and the tokens after it. -/
def findRedirectSplit : List String → Option (List String × Bool × List String)
  | [] => none
  | t :: rest =>
    if t = ">>" || t = ">" then some ([], t = ">>", rest)
    else
      match findRedirectSplit rest with
      | none => none
      | some (pre, ap, post) => some (t :: pre, ap, post)

/-- `parseRedirect` from `parser.js`: tokenize, split at the first
redirect token, rejoin both sides with single spaces and trim. -/
def parseRedirect (line : String) : Option Redirect :=
  match findRedirectSplit (parseCommandLine line) with
  | none => none
  | some (commandTokens, ap, fileTokens) =>
    if commandTokens = [] then none
    else if fileTokens = [] then none
    else some ⟨jsTrim (jsJoin " " commandTokens), jsTrim (jsJoin " " fileTokens), ap⟩

-- scratch sanity checks
example : parseCommandLine "echo \"a b\" c" = ["echo", "a b", "c"] := by decide
example : parseCommandLine "a|b" = ["a", "|", "b"] := by decide
example : parseCommandLine "a >> b" = ["a", ">>", "b"] := by decide
example : parseCommandLine "echo \"a|b\"" = ["echo", "a|b"] := by decide
example : parseRedirect "echo hi > out.txt" =
    some ⟨"echo hi", "out.txt", false⟩ := by decide

-- ============================================================================
-- Virtual filesystem  (filesystem.js)
-- ============================================================================

/-- A filesystem node: `VirtualFile` (its `content`) or `VirtualDirectory`
(its insertion-ordered, name-keyed `children` `Map`, embedded as an
association list).  Timestamps and the permission-display string carried by
the JS classes are wall-clock metadata irrelevant to the verified claims
and are omitted. -/
inductive FSNode where
  | file (content : String)
  | dir (children : List (String × FSNode))

/-- `Map.prototype.get`. -/
def assocGet (ch : List (String × FSNode)) (k : String) : Option FSNode :=
  match ch with
  | [] => none
  | (k', v) :: t => if k' = k then some v else assocGet t k

/-- `Map.prototype.set`: replace in place when the key exists, else append
(JS `Map` preserves insertion order). -/
def assocSet (ch : List (String × FSNode)) (k : String) (v : FSNode) :
    List (String × FSNode) :=
  match ch with
  | [] => [(k, v)]
  | (k', v') :: t => if k' = k then (k', v) :: t else (k', v') :: assocSet t k v

/-- `Map.prototype.delete`. -/
def assocErase (ch : List (String × FSNode)) (k : String) :
    List (String × FSNode) :=
  match ch with
  | [] => []
  | (k', v') :: t => if k' = k then t else (k', v') :: assocErase t k

/-- The `VirtualFilesystem` session state: the root tree, the current
working directory and the home directory. -/
structure VirtualFilesystem where
  root : FSNode
  currentDirectory : String
  homeDirectory : String

/-- `_normalizePath`: split on `/`, drop empty segments, process `.` as a
no-op and `..` as pop-last (popping past root is a no-op), re-join. -/
def normalizePath (path : String) : String :=
  let parts := (jsSplit path '/').filter (fun p => p ≠ "")
  let normalized := parts.foldl
    (fun acc part =>
      if part = "." then acc
      else if part = ".." then acc.dropLast
      else acc ++ [part])
    []
  "/" ++ jsJoin "/" normalized

/-- `resolvePath`: blank resolves to the current directory, a leading `~`
is replaced by the home directory (`String.replace` with the match at
index 0), absolute paths are normalized directly, relative paths are
joined to the current directory first. -/
def resolvePath (fs : VirtualFilesystem) (path : String) : String :=
  if jsTrim path = "" then fs.currentDirectory
  else
    let path := if jsStartsWith path "~" then
        fs.homeDirectory ++ String.mk (path.data.drop 1)
      else path
    if jsStartsWith path "/" then normalizePath path
    else normalizePath (fs.currentDirectory ++ "/" ++ path)

/-- The nonempty segments of a resolved path. -/
def pathSegs (p : String) : List String :=
  (jsSplit p '/').filter (fun s => s ≠ "")

/-- The walk of `_getNodeAtPath` over already-resolved segments: descend
into directories by name; fail on a missing child or when asked to
descend into a file. -/
def getNodeAux : FSNode → List String → Option FSNode
  | n, [] => some n
  | FSNode.file _, _ :: _ => none
  | FSNode.dir ch, s :: rest =>
    match assocGet ch s with
    | none => none
    | some c => getNodeAux c rest

/-- `_getNodeAtPath` (the `resolvedPath === '/'` special case coincides
with walking the empty segment list). -/
def getNodeAtPath (fs : VirtualFilesystem) (path : String) : Option FSNode :=
  getNodeAux fs.root (pathSegs (resolvePath fs path))

/-- The `parentPath` string computed by `_getParentAndName`: the resolved
segments minus the last one, rejoined (or `/` when none remain). -/
def parentPathOf (fs : VirtualFilesystem) (path : String) : String :=
  let initp := (pathSegs (resolvePath fs path)).dropLast
  if initp.length > 0 then "/" ++ jsJoin "/" initp else "/"

/-- The segments walked by `_getNodeAtPath(parentPath)` (which resolves
`parentPath` again before walking). -/
def parentSegsOf (fs : VirtualFilesystem) (path : String) : List String :=
  pathSegs (resolvePath fs (parentPathOf fs path))

/-- `_getParentAndName`: the last resolved segment is the name, the node
at `parentPath` is the parent; `(none, "")` when the path resolves to the
root. -/
def getParentAndName (fs : VirtualFilesystem) (path : String) :
    Option FSNode × String :=
  match (pathSegs (resolvePath fs path)).getLast? with
  | none => (none, "")
  | some name => (getNodeAux fs.root (parentSegsOf fs path), name)

/-- Replace the node reached by `segs` inside `root` (the functional image
of the JS in-place mutation of a node found by `_getNodeAtPath` /
`_getParentAndName`). -/
def replaceAt (root : FSNode) (segs : List String) (n : FSNode) : FSNode :=
  match segs with
  | [] => n
  | s :: rest =>
    match root with
    | FSNode.file c => FSNode.file c
    | FSNode.dir ch =>
      FSNode.dir (ch.map (fun kv => if kv.1 = s then (kv.1, replaceAt kv.2 rest n) else kv))

/-- `cat`: read a file's content; errors mirror the JS `Error` messages. -/
def cat (fs : VirtualFilesystem) (path : String) : Except String String :=
  match getNodeAtPath fs path with
  | none => Except.error ("cat: " ++ path ++ ": No such file or directory")
  | some (FSNode.dir _) => Except.error ("cat: " ++ path ++ ": Is a directory")
  | some (FSNode.file c) => Except.ok c

/-- `readFile` delegates to `cat`. -/
def readFile (fs : VirtualFilesystem) (path : String) : Except String String :=
  cat fs path

/-- `fileExists`: the node exists and is a `VirtualFile`. -/
def fileExists (fs : VirtualFilesystem) (path : String) : Bool :=
  match getNodeAtPath fs path with
  | some (FSNode.file _) => true
  | _ => false

/-- `isDirectory`. -/
def isDirectory (fs : VirtualFilesystem) (path : String) : Bool :=
  match getNodeAtPath fs path with
  | some (FSNode.dir _) => true
  | _ => false

/-- `isFile`. -/
def isFile (fs : VirtualFilesystem) (path : String) : Bool :=
  match getNodeAtPath fs path with
  | some (FSNode.file _) => true
  | _ => false

/-- `writeFile`: create the file when absent (parent must exist and be a
directory), overwrite its content when present, fail when the existing
node is a directory. -/
def writeFile (fs : VirtualFilesystem) (path content : String) :
    Except String VirtualFilesystem :=
  match getParentAndName fs path with
  | (none, _) =>
    Except.error ("writeFile: cannot create file '" ++ path ++ "': No such file or directory")
  | (some (FSNode.file _), _) =>
    Except.error ("writeFile: cannot create file '" ++ path ++ "': Not a directory")
  | (some (FSNode.dir ch), name) =>
    match assocGet ch name with
    | some (FSNode.dir _) =>
      Except.error ("writeFile: cannot create file '" ++ path ++ "': Is a directory")
    | _ =>
      -- existing file: `setContent`; absent: `addChild` — both are
      -- `Map.set` of a `VirtualFile` with the new content
      let newRoot := replaceAt fs.root (parentSegsOf fs path)
        (FSNode.dir (assocSet ch name (FSNode.file content)))
      Except.ok ⟨newRoot, fs.currentDirectory, fs.homeDirectory⟩

/-- `rm`: remove the named child of its parent; a non-empty directory is
only removed when `recursive` is set. -/
def rm (fs : VirtualFilesystem) (path : String) (recursive : Bool) :
    Except String VirtualFilesystem :=
  match getParentAndName fs path with
  | (none, _) =>
    Except.error ("rm: cannot remove '" ++ path ++ "': No such file or directory")
  | (some (FSNode.file _), _) =>
    -- JS calls `parent.getChild` on a `VirtualFile`, raising a TypeError
    -- that the callers' catch blocks turn into an error message
    Except.error "TypeError: parent.getChild is not a function"
  | (some (FSNode.dir ch), name) =>
    match assocGet ch name with
    | none =>
      Except.error ("rm: cannot remove '" ++ path ++ "': No such file or directory")
    | some node =>
      if (match node with
          | FSNode.dir c => !recursive && c.length > 0
          | FSNode.file _ => false) then
        Except.error ("rm: cannot remove '" ++ path ++ "': Directory not empty (use -r for recursive)")
      else
        let newRoot := replaceAt fs.root (parentSegsOf fs path)
          (FSNode.dir (assocErase ch name))
        Except.ok ⟨newRoot, fs.currentDirectory, fs.homeDirectory⟩

-- scratch sanity checks for the VFS
def sampleFS : VirtualFilesystem :=
  ⟨FSNode.dir [("tmp", FSNode.dir []),
               ("d", FSNode.dir [("x", FSNode.file "hi")])],
   "/", "/home/user"⟩

example : resolvePath sampleFS ".." = "/" := by decide
example : resolvePath sampleFS "d" = "/d" := by decide
example :
    (writeFile sampleFS "/tmp/a.txt" "secret").toOption.bind
      (fun fs => (readFile fs "/tmp/a.txt").toOption) = some "secret" := rfl
example : rm sampleFS "d" false =
    Except.error "rm: cannot remove 'd': Directory not empty (use -r for recursive)" :=
  rfl

-- ============================================================================
-- find  (filesystem.js)
-- ============================================================================

mutual
/-- The `traverse` closure of `find`, on one child node: descend into
directories only. -/
def findNode (p : String → Bool) : FSNode → String → List String
  | FSNode.file _, _ => []
  | FSNode.dir ch, path => findChildren p ch path
/-- The `children.forEach` loop of `find`'s `traverse`: record every name
matching the (compiled-glob) predicate `p`, then recurse into directory
children. -/
def findChildren (p : String → Bool) : List (String × FSNode) → String → List String
  | [], _ => []
  | (name, child) :: rest, path =>
    ((if p name then [path ++ "/" ++ name] else []) ++
      findNode p child (path ++ "/" ++ name)) ++ findChildren p rest path
end

/-- `find` from `filesystem.js`; the glob pattern is embedded as its
compiled name predicate `p` (for grep's only call site, pattern `*`, the
compiled regex `^.*$` matches every name, i.e. `p = fun _ => true`). -/
def vfsFind (fs : VirtualFilesystem) (path : String) (p : String → Bool) :
    Except String (List String) :=
  let resolved := resolvePath fs path
  match getNodeAux fs.root (pathSegs resolved) with
  | none => Except.error ("find: '" ++ path ++ "': No such file or directory")
  | some (FSNode.file _) => Except.error ("find: '" ++ path ++ "': Not a directory")
  | some (FSNode.dir ch) => Except.ok (findChildren p ch resolved)

-- ============================================================================
-- grep  (text.js)
-- ============================================================================

/-- `parseFlags` from `text.js`: single-dash arguments contribute their
characters to the flag set (a `Set`, embedded as a list queried by
membership); non-dash arguments are positional; `--…` and `-` alone are
dropped. -/
def parseFlags (args : List String) : List Char × List String :=
  args.foldl
    (fun acc arg =>
      if jsStartsWith arg "-" && arg.length > 1 && !(jsStartsWith arg "--") then
        (acc.1 ++ arg.data.drop 1, acc.2)
      else if !(jsStartsWith arg "-") then (acc.1, acc.2 ++ [arg])
      else acc)
    ([], [])

/-- The piped-input line loop of `grep` (lines 115–130 of `text.js`):
keep the lines whose match status differs from the invert flag, with an
`N:` line-number prefix when `-n` is set.  The compiled regex is
embedded as the line predicate `test` (the code resets `lastIndex` after
every `test`, so each call starts from index 0). -/
def grepPipeResults (test : String → Bool) (showNums invert : Bool)
    (input : String) : List String :=
  ((jsSplit input '\n').enum).filterMap
    (fun q =>
      if test q.2 != invert then
        some (if showNums then toString (q.1 + 1) ++ ":" ++ q.2 else q.2)
      else none)

/-- `processFile` from `text.js`: read one file, keep matching lines with
the optional `file:` and `N:` prefixes; a thrown VFS error is pushed as a
`grep: <file>: <message>` result line. -/
def processFile (test : String → Bool) (invert showNums multi : Bool)
    (fs : VirtualFilesystem) (fileArg : String) : List String :=
  match cat fs fileArg with
  | Except.error msg => ["grep: " ++ fileArg ++ ": " ++ msg]
  | Except.ok content =>
    ((jsSplit content '\n').enum).filterMap
      (fun q =>
        if test q.2 != invert then
          some ((if multi then fileArg ++ ":" else "") ++
                (if showNums then toString (q.1 + 1) ++ ":" else "") ++ q.2)
        else none)

/-- The recursive-branch loop of `grep` over its file arguments: a
directory is expanded through `find(path, '*')` and its file results are
processed; a thrown `find` error aborts the loop (the JS exception
reaches grep's outer catch). -/
def grepRecurGo (test : String → Bool) (invert showNums multi : Bool)
    (fs : VirtualFilesystem) : List String → Except String (List String)
  | [] => Except.ok []
  | path :: rest =>
    if isDirectory fs path then
      match vfsFind fs path (fun _ => true) with
      | Except.error e => Except.error e
      | Except.ok found =>
        let rs := (found.filter (fun f => isFile fs f)).flatMap
          (fun f => processFile test invert showNums multi fs f)
        (grepRecurGo test invert showNums multi fs rest).map (fun r => rs ++ r)
    else
      (grepRecurGo test invert showNums multi fs rest).map
        (fun r => processFile test invert showNums multi fs path ++ r)

/-- The file-argument processing of `grep` (lines 139–156 of `text.js`);
`multipleFiles` is `files.length > 1` over the original argument list. -/
def grepFileResultsE (test : String → Bool) (showNums invert recursive : Bool)
    (fs : VirtualFilesystem) (files : List String) : Except String (List String) :=
  let multi := files.length > 1
  if recursive then grepRecurGo test invert showNums multi fs files
  else Except.ok (files.flatMap (fun f => processFile test invert showNums multi fs f))

/-- `grep` from `text.js`.  The compiled regex (`new RegExp(pattern,
flags)` with the optional `i` flag) is embedded as the abstract line
predicate `test`; only well-formed patterns are modelled, so the
`invalid pattern` branch does not appear. -/
def grep (test : String → Bool) (args : List String) (fs : VirtualFilesystem)
    (pipeInput : Option String) : CommandResult :=
  if args.length = 0 then CommandResult.mkError "grep: missing pattern"
  else
    let fp := parseFlags args
    match fp.2 with
    | [] => CommandResult.mkError "grep: missing pattern"
    | pattern :: files =>
      if pattern = "" then CommandResult.mkError "grep: missing pattern"
      else
        let showNums := fp.1.contains 'n'
        let invert := fp.1.contains 'v'
        let recursive := fp.1.contains 'r'
        match pipeInput with
        | some input =>
          CommandResult.mkSuccess (jsJoin "\n" (grepPipeResults test showNums invert input))
        | none =>
          if files.length = 0 then
            CommandResult.mkError "grep: no files specified (use pipe or provide filename)"
          else
            match grepFileResultsE test showNums invert recursive fs files with
            | Except.error msg => CommandResult.mkError ("grep: " ++ msg)
            | Except.ok results =>
              if results.length = 0 then CommandResult.mk "" false 1
              else CommandResult.mkSuccess (jsJoin "\n" results)

-- ============================================================================
-- tail  (files.js)
-- ============================================================================

/-- The argument loop of `tail` (and `head`): `-n N` (invalid or negative
`N` is an error), fused `-N` (silently ignored unless a nonnegative
number), anything else is a file argument. -/
def tailParseArgs : List String → Nat → List String → Except String (Nat × List String)
  | [], n, files => Except.ok (n, files)
  | a :: rest, n, files =>
    if a = "-n" && rest.length > 0 then
      match rest with
      | [] => Except.ok (n, files)
      | b :: rest2 =>
        match jsParseInt b with
        | none => Except.error "tail: invalid number of lines"
        | some v =>
          if v < 0 then Except.error "tail: invalid number of lines"
          else tailParseArgs rest2 v.toNat files
    else if jsStartsWith a "-" && a.length > 1 then
      match jsParseInt (String.mk (a.data.drop 1)) with
      | some v =>
        if v ≥ 0 then tailParseArgs rest v.toNat files
        else tailParseArgs rest n files
      | none => tailParseArgs rest n files
    else tailParseArgs rest n (files ++ [a])

/-- `Array.prototype.slice(-n)` for a nonnegative JS number `n`: `-0` is
`0`, so the whole array is returned; otherwise the last `n` elements. -/
def jsSliceNeg (l : List String) (n : Nat) : List String :=
  if n = 0 then l else l.drop (l.length - n)

/-- `tail` from `files.js`: last `numLines` lines of the piped input or of
the first file argument. -/
def tail (args : List String) (fs : VirtualFilesystem)
    (pipeInput : Option String) : CommandResult :=
  match tailParseArgs args 10 [] with
  | Except.error msg => CommandResult.mkError msg
  | Except.ok (numLines, files) =>
    match pipeInput with
    | some input =>
      CommandResult.mkSuccess (jsJoin "\n" (jsSliceNeg (jsSplit input '\n') numLines))
    | none =>
      match files with
      | [] => CommandResult.mkError "tail: missing file operand"
      | f :: _ =>
        match cat fs f with
        | Except.ok content =>
          CommandResult.mkSuccess (jsJoin "\n" (jsSliceNeg (jsSplit content '\n') numLines))
        | Except.error msg => CommandResult.mkError msg

-- ============================================================================
-- rm easter egg  (easter.js)
-- ============================================================================

/-- Case-insensitive match of the regex group `(-rf?|--recursive)` at the
head of `l`, returning the remainder.  The `-rf?`/`--recursive`
alternatives are disjoint (they differ at the second character), and the
greedy optional `f` is equivalent to this deterministic consumption
because a retained `f` can never satisfy the following `\s+`. -/
def matchRecTok : List Char → Option (List Char)
  | '-' :: rest =>
    match rest with
    | '-' :: rest2 =>
      if (rest2.take 9).map Char.toLower = "recursive".data then some (rest2.drop 9)
      else none
    | c :: rest2 =>
      if c.toLower = 'r' then
        match rest2 with
        | f :: rest3 => if f.toLower = 'f' then some rest3 else some rest2
        | [] => some []
      else none
    | [] => none
  | _ => none

/-- `/(-rf?|--recursive)\s+(\/|\*|~)/i` tested at one start position: the
flag token, at least one whitespace (maximal consumption is equivalent,
since the following class contains no whitespace), then `/`, `*` or `~`. -/
def danger1At (l : List Char) : Bool :=
  match matchRecTok l with
  | none => false
  | some rest =>
    !(rest.takeWhile jsWhitespace).isEmpty &&
      (match rest.dropWhile jsWhitespace with
       | c :: _ => c = '/' || c = '*' || c = '~'
       | [] => false)

/-- `/\/(\/|\*)\s+(-rf?|--recursive)/i` tested at one start position. -/
def danger2At (l : List Char) : Bool :=
  match l with
  | '/' :: c :: rest =>
    (c = '/' || c = '*') &&
      !(rest.takeWhile jsWhitespace).isEmpty &&
      (matchRecTok (rest.dropWhile jsWhitespace)).isSome
  | _ => false

/-- Unanchored regex search: test the position predicate at every suffix
(`String.prototype.match` is truthy iff some start position matches). -/
def scanDanger (atP : List Char → Bool) : List Char → Bool
  | [] => false
  | c :: rest => atP (c :: rest) || scanDanger atP rest

/-- The dangerous-pattern test of easter.js `rm` on the joined argument
string. -/
def dangerousRm (s : String) : Bool :=
  scanDanger danger1At s.data || scanDanger danger2At s.data

/-- The simulated-catastrophe message returned for dangerous patterns. -/
def rmExplosion : String :=
  "\n    CRITICAL ERROR: System deletion initiated!\n\n         ,-^^-,\n        /  ##  \\\n       |  ####  |\n       |  ####  |    BOOM!\n        \\  ##  /\n         '-vv-'\n\n    [====================================]\n\n    Deleting: /dev/null\n    Deleting: /dev/zero\n    Deleting: /etc/shadow\n    Deleting: /boot/vmlinuz\n    Deleting: Everything important...\n\n    Just kidding! This is a sandboxed portfolio terminal.\n    Nothing was actually deleted. Nice try though!\n\n    Pro tip: Never run 'rm -rf /' on a real system.\n        "

/-- The removal loop of easter.js `rm`: `filesystem.rm(file)` for each
non-flag argument — note the call passes no `recursive` argument, so the
VFS default `false` is always used.  The first thrown error aborts the
loop (removals before it persist, matching the JS mutation). -/
def rmLoop (fs : VirtualFilesystem) : List String → Option String × VirtualFilesystem
  | f :: rest =>
    (match rm fs f false with
     | Except.ok fs1 => rmLoop fs1 rest
     | Except.error msg => (some msg, fs))
  | [] => (none, fs)

/-- `rm` from `easter.js`: missing-operand check, dangerous-pattern easter
egg on the space-joined raw arguments, then real VFS removal of the
non-flag arguments. -/
def rmCmd (args : List String) (fs : VirtualFilesystem) :
    CommandResult × VirtualFilesystem :=
  if args.length = 0 then (CommandResult.mkError "rm: missing operand", fs)
  else
    let cmdLine := jsJoin " " args
    if dangerousRm cmdLine then (CommandResult.mkSuccess rmExplosion, fs)
    else
      let files := args.filter (fun a => !(jsStartsWith a "-"))
      if files.length = 0 then (CommandResult.mkError "rm: missing operand", fs)
      else
        match rmLoop fs files with
        | (none, fs1) => (CommandResult.mkSuccess "", fs1)
        | (some msg, fs1) => (CommandResult.mkError msg, fs1)

-- ============================================================================
-- History and redirect execution  (executor.js)
-- ============================================================================

/-- `addToHistory`: skip blank commands and exact repeats of the last
entry; push, then evict the oldest entry past `maxHistory`. -/
def addToHistory (history : List String) (maxHistory : Nat)
    (command : String) : List String :=
  if jsTrim command = "" ∨ history.getLast? = some command then history
  else
    let h := history ++ [command]
    if h.length > maxHistory then h.tail else h

/-- The history effect of one `execute(commandLine)` call (lines 38–48 of
`executor.js`): trim, ignore blank lines, then `addToHistory` with the
executor's `maxHistory = 1000`. -/
def executeHistoryStep (history : List String) (commandLine : String) : List String :=
  let t := jsTrim commandLine
  if t = "" then history else addToHistory history 1000 t

/-- `executeWithRedirect` from `executor.js`, with the inner
`executeWithInput` dispatch abstracted as `execInner` (it may both return
a result and mutate the filesystem).  Parse the redirect, run the
command, resolve the destination against the current directory, then
append (old content + newline + output) when in append mode onto an
existing file, else overwrite or create; the visible result of a
successful write is the empty success result. -/
def executeWithRedirect
    (execInner : String → Option String → VirtualFilesystem →
      CommandResult × VirtualFilesystem)
    (commandLine : String) (pipeInput : Option String)
    (fs : VirtualFilesystem) : CommandResult × VirtualFilesystem :=
  match parseRedirect commandLine with
  | none => (CommandResult.mkError "Error: Invalid redirect syntax", fs)
  | some rd =>
    if rd.file = "" then (CommandResult.mkError "Error: Invalid redirect syntax", fs)
    else
      let r := execInner rd.command pipeInput fs
      let fs1 := r.2
      let targetPath := resolvePath fs1 rd.file
      if rd.append && fileExists fs1 targetPath then
        match readFile fs1 targetPath with
        | Except.error msg => (CommandResult.mkError ("Error: " ++ msg), fs1)
        | Except.ok current =>
          match writeFile fs1 targetPath (current ++ "\n" ++ r.1.output) with
          | Except.ok fs2 => (CommandResult.mkSuccess "", fs2)
          | Except.error msg => (CommandResult.mkError ("Error: " ++ msg), fs1)
      else
        match writeFile fs1 targetPath r.1.output with
        | Except.ok fs2 => (CommandResult.mkSuccess "", fs2)
        | Except.error msg => (CommandResult.mkError ("Error: " ++ msg), fs1)

-- scratch sanity checks for the commands
example : dangerousRm "-rf /" = true := by decide
example : dangerousRm "-r d" = false := by decide
example : dangerousRm "--recursive ~" = true := by decide
example : (rmCmd ["-r", "d"] sampleFS).1 =
    CommandResult.mkError "rm: cannot remove 'd': Directory not empty (use -r for recursive)" := rfl
example : (rmCmd ["-rf", "/"] sampleFS).1 = CommandResult.mkSuccess rmExplosion := rfl
example : tail ["-n", "0"] sampleFS (some "a\nb\nc") = CommandResult.mkSuccess "a\nb\nc" := rfl
example : tail ["-0"] sampleFS (some "a\nb\nc") = CommandResult.mkSuccess "a\nb\nc" := rfl
example : tail ["-2"] sampleFS (some "a\nb\nc") = CommandResult.mkSuccess "b\nc" := rfl
example : grep (regexLitTest "zzz") ["zzz"] sampleFS (some "abc") =
    CommandResult.mk "" true 0 := rfl
example : grep (regexLitTest "hi") ["hi", "/d/x"] sampleFS none =
    CommandResult.mkSuccess "hi" := rfl
example : grep (regexLitTest "zzz") ["zzz", "/d/x"] sampleFS none =
    CommandResult.mk "" false 1 := rfl

-- ============================================================================
-- Tokenizer lemmas
-- ============================================================================

lemma mkString_eq_empty_iff (l : List Char) : String.mk l = "" ↔ l = [] := by
  constructor
  · intro h; simpa using congrArg String.data h
  · intro h; subst h; rfl

lemma pushTok_no_empty {cur : List Char} {toks : List String} (h : "" ∉ toks) :
    "" ∉ pushTok cur toks := by
  by_cases hc : cur = [] <;> simp [pushTok, hc]
  · exact h
  · refine ⟨h, fun he => hc ?_⟩
    exact (mkString_eq_empty_iff cur).mp he.symm

lemma singleton_append_no_empty {toks : List String} {t : String}
    (h : "" ∉ toks) (ht : t ≠ "") : "" ∉ toks ++ [t] := by
  intro hm
  rcases List.mem_append.mp hm with h1 | h1
  · exact h h1
  · exact ht (List.mem_singleton.mp h1).symm

lemma parseAux_no_empty (l : List Char) (inS inD : Bool) (cur : List Char)
    (toks : List String) (h : "" ∉ toks) :
    "" ∉ parseCommandLineAux l inS inD cur toks := by
  induction l, inS, inD, cur, toks using parseCommandLineAux.induct <;>
    simp only [parseCommandLineAux] <;>
    all_goals (
      try rw [if_pos (by assumption)]
      try rw [if_neg (by assumption)]
      first
      | exact pushTok_no_empty (by assumption)
      | (apply_assumption
         first
         | assumption
         | exact pushTok_no_empty (by assumption)
         | exact singleton_append_no_empty (pushTok_no_empty (by assumption)) (by decide)))

lemma pushTok_eq (cur : List Char) (toks : List String) :
    pushTok cur toks = toks ++ (if cur = [] then [] else [String.mk cur]) := by
  unfold pushTok; split <;> simp

lemma splitOn_no_sep {l : List Char} {sep : Char} (h : ∀ c ∈ l, c ≠ sep) :
    l.splitOn sep = [l] := by
  simp only [List.splitOn]
  apply List.splitOnP_eq_single
  intro x hx
  simp [h x hx]

lemma splitOn_append_sep {cur l : List Char} {sep : Char} (h : ∀ c ∈ cur, c ≠ sep) :
    (cur ++ sep :: l).splitOn sep = cur :: l.splitOn sep := by
  simp only [List.splitOn]
  exact List.splitOnP_first _ _ (fun x hx => by simp [h x hx]) sep (by simp) l

lemma parseAux_plain_cons {c : Char} (hc1 : c ≠ '\\') (hc2 : c ≠ '\'')
    (hc3 : c ≠ '"') (hc4 : c ≠ ' ') (hc5 : c ≠ '|') (hc6 : c ≠ '>')
    (l : List Char) (inS inD : Bool) (cur : List Char) (toks : List String) :
    parseCommandLineAux (c :: l) inS inD cur toks =
      parseCommandLineAux l inS inD (cur ++ [c]) toks := by
  rw [parseCommandLineAux.eq_def]
  split <;> simp_all

lemma aux_plain (l : List Char) (inS inD : Bool) (cur : List Char) (toks : List String)
    (hS : inS = false) (hD : inD = false)
    (hl : ∀ c ∈ l, c ≠ '\\' ∧ c ≠ '\'' ∧ c ≠ '"' ∧ c ≠ '|' ∧ c ≠ '>')
    (hcur : ∀ c ∈ cur, c ≠ ' ') :
    parseCommandLineAux l inS inD cur toks =
      toks ++ (((cur ++ l).splitOn ' ').filter (fun t => t ≠ [])).map String.mk := by
  induction l, inS, inD, cur, toks using parseCommandLineAux.induct
  case case1 inS inD cur toks =>
    rw [parseCommandLineAux, pushTok_eq, List.append_nil, splitOn_no_sep hcur]
    by_cases hc : cur = [] <;> simp [hc]
  case case8 rest inS inD cur toks hcond ih =>
    rw [parseCommandLineAux, if_pos hcond,
      ih hS hD (fun c hc => hl c (by simp [hc])) (by simp),
      splitOn_append_sep hcur, pushTok_eq]
    by_cases hc : cur = [] <;> simp [hc, List.filter_cons]
  case case16 c l inS inD cur toks hbs1 hbs2 hsq hdq hsp hpipe hgg hgt ih =>
    have hc := hl c (by simp)
    have hcur2 : ∀ x ∈ cur ++ [c], x ≠ ' ' := by
      intro x hx
      rcases List.mem_append.mp hx with h | h
      · exact hcur x h
      · rw [List.mem_singleton] at h; subst h; exact fun hh => hsp hh
    rw [parseAux_plain_cons hc.1 hc.2.1 hc.2.2.1 (fun h => hsp h) hc.2.2.2.1 hc.2.2.2.2,
        ih hS hD (fun x hx => hl x (by simp [hx])) hcur2]
    simp [List.append_assoc]
  all_goals
    first
    | exact absurd rfl (hl _ (List.mem_cons_self _ _)).1
    | exact absurd rfl (hl _ (List.mem_cons_self _ _)).2.1
    | exact absurd rfl (hl _ (List.mem_cons_self _ _)).2.2.1
    | exact absurd rfl (hl _ (List.mem_cons_self _ _)).2.2.2.1
    | exact absurd rfl (hl _ (List.mem_cons_self _ _)).2.2.2.2
    | simp_all

lemma parseAux_gt_nil (inS inD : Bool) (cur : List Char) (toks : List String) :
    parseCommandLineAux ['>'] inS inD cur toks =
      if (!inS && !inD) = true then
        parseCommandLineAux [] inS inD [] (pushTok cur toks ++ [">"])
      else parseCommandLineAux [] inS inD (cur ++ ['>']) toks := by
  rw [parseCommandLineAux.eq_def]
  split <;> (try simp_all) <;>
    (rename_i heq
     exact absurd heq.1.symm (by assumption))

lemma parseAux_gt_cons_ne (c2 : Char) (r : List Char) (h : c2 ≠ '>')
    (inS inD : Bool) (cur : List Char) (toks : List String) :
    parseCommandLineAux ('>' :: c2 :: r) inS inD cur toks =
      if (!inS && !inD) = true then
        parseCommandLineAux (c2 :: r) inS inD [] (pushTok cur toks ++ [">"])
      else parseCommandLineAux (c2 :: r) inS inD (cur ++ ['>']) toks := by
  rw [parseCommandLineAux.eq_def]
  split <;> (try simp_all) <;>
    (rename_i heq
     exact absurd heq.1.symm (by assumption))

lemma parseAux_dquote_span (N : Nat) :
    ∀ (s rest cur : List Char) (toks : List String),
    (s ++ rest).length ≤ N →
    (∀ c ∈ s, c ≠ '\\' ∧ c ≠ '"') →
    parseCommandLineAux (s ++ rest) false true cur toks =
      parseCommandLineAux rest false true (cur ++ s) toks := by
  induction N with
  | zero =>
    intro s rest cur toks hlen _
    cases s with
    | nil => simp
    | cons a t => simp at hlen
  | succ N ih =>
    intro s rest cur toks hlen hs
    match s with
    | [] => simp
    | c :: s' =>
      have hc := hs c (by simp)
      have hs' : ∀ x ∈ s', x ≠ '\\' ∧ x ≠ '"' := fun x hx => hs x (by simp [hx])
      have hlen' : (s' ++ rest).length ≤ N := by
        simp only [List.cons_append, List.length_cons] at hlen
        omega
      have hassoc : ∀ x : Char, (cur ++ [x]) ++ s' = cur ++ (x :: s') := by
        intro x; simp
      by_cases hsq : c = '\''
      · subst hsq
        rw [List.cons_append, parseCommandLineAux, if_neg (by decide),
          ih s' rest (cur ++ ['\'']) toks hlen' hs', hassoc]
      · by_cases hsp : c = ' '
        · subst hsp
          rw [List.cons_append, parseCommandLineAux, if_neg (by decide),
            ih s' rest (cur ++ [' ']) toks hlen' hs', hassoc]
        · by_cases hp : c = '|'
          · subst hp
            rw [List.cons_append, parseCommandLineAux, if_neg (by decide),
              ih s' rest (cur ++ ['|']) toks hlen' hs', hassoc]
          · by_cases hg : c = '>'
            · subst hg
              cases hs2 : s' with
              | cons c2 s'' =>
                by_cases hc2 : c2 = '>'
                · subst hc2 hs2
                  have hlen2 : (s'' ++ rest).length ≤ N := by
                    simp only [List.cons_append, List.length_cons] at hlen
                    omega
                  rw [List.cons_append, List.cons_append, parseCommandLineAux,
                    if_neg (by decide),
                    ih s'' rest (cur ++ ['>', '>']) toks hlen2
                      (fun x hx => hs x (by simp [hx]))]
                  simp
                · subst hs2
                  rw [List.cons_append, List.cons_append,
                    parseAux_gt_cons_ne c2 (s'' ++ rest) hc2, if_neg (by decide),
                    ← List.cons_append,
                    ih (c2 :: s'') rest (cur ++ ['>']) toks (by simpa using hlen') hs',
                    hassoc]
              | nil =>
                subst hs2
                cases hr : rest with
                | nil =>
                  rw [show (['>'] ++ ([] : List Char)) = ['>'] from by simp,
                    parseAux_gt_nil, if_neg (by decide)]
                | cons c2 r2 =>
                  subst hr
                  by_cases hc2 : c2 = '>'
                  · subst hc2
                    have hlen2 : ((['>'] : List Char) ++ r2).length ≤ N := by
                      simpa using hlen'
                    rw [show ((['>'] : List Char) ++ '>' :: r2) = '>' :: '>' :: r2 from rfl,
                      parseCommandLineAux, if_neg (by decide)]
                    have := ih ['>'] r2 (cur ++ ['>']) toks hlen2
                      (by intro x hx; rw [List.mem_singleton] at hx; subst hx
                          exact ⟨by decide, by decide⟩)
                    rw [show ((['>'] : List Char) ++ r2) = '>' :: r2 from rfl] at this
                    rw [this]
                    simp
                  · rw [show ((['>'] : List Char) ++ c2 :: r2) = '>' :: c2 :: r2 from rfl,
                      parseAux_gt_cons_ne c2 r2 hc2, if_neg (by decide)]
            · rw [List.cons_append,
                parseAux_plain_cons hc.1 hsq hc.2 hsp hp hg,
                ih s' rest (cur ++ [c]) toks hlen' hs', hassoc]

lemma parseAux_squote_span (N : Nat) :
    ∀ (s rest cur : List Char) (toks : List String),
    (s ++ rest).length ≤ N →
    (∀ c ∈ s, c ≠ '\\' ∧ c ≠ '\'') →
    parseCommandLineAux (s ++ rest) true false cur toks =
      parseCommandLineAux rest true false (cur ++ s) toks := by
  induction N with
  | zero =>
    intro s rest cur toks hlen _
    cases s with
    | nil => simp
    | cons a t => simp at hlen
  | succ N ih =>
    intro s rest cur toks hlen hs
    match s with
    | [] => simp
    | c :: s' =>
      have hc := hs c (by simp)
      have hs' : ∀ x ∈ s', x ≠ '\\' ∧ x ≠ '\'' := fun x hx => hs x (by simp [hx])
      have hlen' : (s' ++ rest).length ≤ N := by
        simp only [List.cons_append, List.length_cons] at hlen
        omega
      have hassoc : ∀ x : Char, (cur ++ [x]) ++ s' = cur ++ (x :: s') := by
        intro x; simp
      by_cases hdq : c = '"'
      · subst hdq
        rw [List.cons_append, parseCommandLineAux, if_neg (by decide),
          ih s' rest (cur ++ ['"']) toks hlen' hs', hassoc]
      · by_cases hsp : c = ' '
        · subst hsp
          rw [List.cons_append, parseCommandLineAux, if_neg (by decide),
            ih s' rest (cur ++ [' ']) toks hlen' hs', hassoc]
        · by_cases hp : c = '|'
          · subst hp
            rw [List.cons_append, parseCommandLineAux, if_neg (by decide),
              ih s' rest (cur ++ ['|']) toks hlen' hs', hassoc]
          · by_cases hg : c = '>'
            · subst hg
              cases hs2 : s' with
              | cons c2 s'' =>
                by_cases hc2 : c2 = '>'
                · subst hc2 hs2
                  have hlen2 : (s'' ++ rest).length ≤ N := by
                    simp only [List.cons_append, List.length_cons] at hlen
                    omega
                  rw [List.cons_append, List.cons_append, parseCommandLineAux,
                    if_neg (by decide),
                    ih s'' rest (cur ++ ['>', '>']) toks hlen2
                      (fun x hx => hs x (by simp [hx]))]
                  simp
                · subst hs2
                  rw [List.cons_append, List.cons_append,
                    parseAux_gt_cons_ne c2 (s'' ++ rest) hc2, if_neg (by decide),
                    ← List.cons_append,
                    ih (c2 :: s'') rest (cur ++ ['>']) toks (by simpa using hlen') hs',
                    hassoc]
              | nil =>
                subst hs2
                cases hr : rest with
                | nil =>
                  rw [show (['>'] ++ ([] : List Char)) = ['>'] from by simp,
                    parseAux_gt_nil, if_neg (by decide)]
                | cons c2 r2 =>
                  subst hr
                  by_cases hc2 : c2 = '>'
                  · subst hc2
                    have hlen2 : ((['>'] : List Char) ++ r2).length ≤ N := by
                      simpa using hlen'
                    rw [show ((['>'] : List Char) ++ '>' :: r2) = '>' :: '>' :: r2 from rfl,
                      parseCommandLineAux, if_neg (by decide)]
                    have := ih ['>'] r2 (cur ++ ['>']) toks hlen2
                      (by intro x hx; rw [List.mem_singleton] at hx; subst hx
                          exact ⟨by decide, by decide⟩)
                    rw [show ((['>'] : List Char) ++ r2) = '>' :: r2 from rfl] at this
                    rw [this]
                    simp
                  · rw [show ((['>'] : List Char) ++ c2 :: r2) = '>' :: c2 :: r2 from rfl,
                      parseAux_gt_cons_ne c2 r2 hc2, if_neg (by decide)]
            · rw [List.cons_append,
                parseAux_plain_cons hc.1 hc.2 hdq hsp hp hg,
                ih s' rest (cur ++ [c]) toks hlen' hs', hassoc]

lemma filter_map_mk (ll : List (List Char)) :
    ((ll.map String.mk).filter (fun t => t ≠ "")) =
      (ll.filter (fun t => t ≠ [])).map String.mk := by
  induction ll with
  | nil => rfl
  | cons h t ih =>
    by_cases hh : h = []
    · subst hh
      simp only [List.map_cons, List.filter_cons]
      rw [if_neg (by simp), if_neg (by simp)]
      exact ih
    · simp only [List.map_cons, List.filter_cons]
      rw [if_pos (by simpa using fun he => hh ((mkString_eq_empty_iff h).mp he)),
        if_pos (by simpa using hh), List.map_cons, ih]

lemma data_append3 (a b c : String) :
    (a ++ b ++ c).data = a.data ++ b.data ++ c.data := by
  simp

/-- C3 (amended): the tokenizer never produces empty tokens; on lines free
of backslashes, quotes, pipes and redirects it is exactly splitting at
space characters with empty fields dropped; and a nonempty single- or
double-quoted span forms one token with the delimiting quotes stripped
and any `|`, `>`, spaces or other-quote characters inside kept verbatim. -/
theorem tokenizer_space_quote_contract :
    (∀ line : String, "" ∉ parseCommandLine line) ∧
    (∀ line : String,
      (∀ c ∈ line.data, c ≠ '\\' ∧ c ≠ '\'' ∧ c ≠ '"' ∧ c ≠ '|' ∧ c ≠ '>') →
      parseCommandLine line = (jsSplit line ' ').filter (fun t => t ≠ "")) ∧
    (∀ s : String, s ≠ "" → (∀ c ∈ s.data, c ≠ '\\' ∧ c ≠ '"') →
      parseCommandLine ("\"" ++ s ++ "\"") = [s]) ∧
    (∀ s : String, s ≠ "" → (∀ c ∈ s.data, c ≠ '\\' ∧ c ≠ '\'') →
      parseCommandLine ("'" ++ s ++ "'") = [s]) := by
  refine ⟨fun line => parseAux_no_empty _ _ _ _ _ (by simp), ?_, ?_, ?_⟩
  · intro line hl
    rw [parseCommandLine, aux_plain _ _ _ _ _ rfl rfl hl (by simp)]
    simp only [List.nil_append, jsSplit, filter_map_mk]
  · intro s hne hs
    have hdata : ("\"" ++ s ++ "\"").data = '"' :: (s.data ++ ['"']) := by
      rw [data_append3]; rfl
    rw [parseCommandLine, hdata, parseCommandLineAux, if_pos (by decide)]
    have hspan := parseAux_dquote_span (s.data ++ ['"']).length s.data ['"'] [] []
      (le_refl _) hs
    simp only [Bool.not_false] at hspan ⊢
    rw [hspan, List.nil_append, parseCommandLineAux, if_pos (by decide),
      parseCommandLineAux, pushTok]
    rw [if_neg (fun he => hne (by
      have := congrArg String.mk he
      simpa using this))]
    rfl
  · intro s hne hs
    have hdata : ("'" ++ s ++ "'").data = '\'' :: (s.data ++ ['\'']) := by
      rw [data_append3]; rfl
    rw [parseCommandLine, hdata, parseCommandLineAux, if_pos (by decide)]
    have hspan := parseAux_squote_span (s.data ++ ['\'']).length s.data ['\''] [] []
      (le_refl _) hs
    simp only [Bool.not_false] at hspan ⊢
    rw [hspan, List.nil_append, parseCommandLineAux, if_pos (by decide),
      parseCommandLineAux, pushTok]
    rw [if_neg (fun he => hne (by
      have := congrArg String.mk he
      simpa using this))]
    rfl

/-- C3 witness: concrete instances of the amended tokenizer contract. -/
theorem tokenizer_space_quote_contract_witness :
    parseCommandLine "ls  -la   docs" = ["ls", "-la", "docs"] ∧
    parseCommandLine "\"a|b c\"" = ["a|b c"] ∧
    parseCommandLine "'x > y'" = ["x > y"] :=
  ⟨(tokenizer_space_quote_contract.2.1 "ls  -la   docs" (by decide)).trans (by decide),
   tokenizer_space_quote_contract.2.2.1 "a|b c" (by decide) (by decide),
   tokenizer_space_quote_contract.2.2.2 "x > y" (by decide) (by decide)⟩

/-- C3 counterexample: a tab is whitespace but does not split tokens — the
tokenizer only splits at the space character, so the claim's "splits at
unquoted whitespace" fails on `"a\tb"`. -/
theorem tokenizer_tab_counterexample :
    parseCommandLine "a\tb" = ["a\tb"] ∧
    parseCommandLine "a\tb" ≠ ["a", "b"] ∧
    jsWhitespace '\t' = true ∧ Char.isWhitespace '\t' = true := by
  refine ⟨by decide, by decide, by decide, by decide⟩

-- ============================================================================
-- rm easter-egg theorems  (C5, C2)
-- ============================================================================

/-- C5: any `rm` invocation whose joined raw argument string matches the
dangerous recursive-root pattern returns the successful simulated-only
explosion message and leaves the entire VFS state untouched. -/
theorem rm_dangerous_simulated (args : List String) (fs : VirtualFilesystem)
    (h : dangerousRm (jsJoin " " args) = true) :
    rmCmd args fs = (CommandResult.mkSuccess rmExplosion, fs) := by
  have hne : args.length ≠ 0 := by
    intro h0
    rw [List.length_eq_zero.mp h0] at h
    exact absurd h (by decide)
  rw [rmCmd, if_neg hne, if_pos h]

/-- C5 witness: `rm -rf /` produces the explosion message and the sample
VFS is unchanged. -/
theorem rm_dangerous_simulated_witness :
    dangerousRm (jsJoin " " ["-rf", "/"]) = true ∧
    rmCmd ["-rf", "/"] sampleFS = (CommandResult.mkSuccess rmExplosion, sampleFS) :=
  ⟨by decide, rm_dangerous_simulated ["-rf", "/"] sampleFS (by decide)⟩

/-- C2 (code-bug evidence): `rm -r d` on the non-empty directory `/d`
fails with the VFS "Directory not empty (use -r for recursive)" error and
removes nothing, because `easter.js` never forwards the `-r` flag to
`filesystem.rm` — the parsed `flags` are discarded and the VFS default
`recursive = false` is always used. -/
theorem rm_recursive_flag_ignored :
    isDirectory sampleFS "/d" = true ∧
    getNodeAtPath sampleFS "/d/x" = some (FSNode.file "hi") ∧
    rmCmd ["-r", "d"] sampleFS =
      (CommandResult.mkError
        "rm: cannot remove 'd': Directory not empty (use -r for recursive)",
       sampleFS) :=
  ⟨rfl, rfl, rfl⟩

-- ============================================================================
-- History lemmas and theorem  (C6)
-- ============================================================================

lemma dropWhile_cons_not (p : Char → Bool) (l : List Char) (c : Char) (t : List Char)
    (h : l.dropWhile p = c :: t) : p c = false := by
  induction l with
  | nil => simp at h
  | cons a l' ih =>
    rw [List.dropWhile_cons] at h
    by_cases ha : p a
    · rw [if_pos ha] at h; exact ih h
    · rw [if_neg ha] at h
      injection h with h1 h2
      subst h1
      simpa using ha

lemma trimList_ne_nil_not_all (l : List Char) (h : trimList l ≠ []) :
    (trimList l).all jsWhitespace = false := by
  unfold trimList at *
  cases hC : (l.dropWhile jsWhitespace).reverse.dropWhile jsWhitespace with
  | nil => rw [hC] at h; simp at h
  | cons c t =>
    have hc : jsWhitespace c = false := dropWhile_cons_not _ _ _ _ hC
    apply Bool.eq_false_iff.mpr
    intro hall
    rw [List.all_eq_true] at hall
    exact absurd (hall c (by simp)) (by simp [hc])

lemma trimList_ne_nil_of_mem {l : List Char} {c : Char} (hm : c ∈ l)
    (hc : jsWhitespace c = false) : trimList l ≠ [] := by
  intro h
  unfold trimList at h
  rw [List.reverse_eq_nil_iff, List.dropWhile_eq_nil_iff] at h
  have h2 : ∀ x ∈ l.dropWhile jsWhitespace, jsWhitespace x = true :=
    fun x hx => h x (by simpa using hx)
  have hsplit : c ∈ l.takeWhile jsWhitespace ++ l.dropWhile jsWhitespace := by
    rw [List.takeWhile_append_dropWhile]; exact hm
  rcases List.mem_append.mp hsplit with h3 | h3
  · exact absurd (List.mem_takeWhile_imp h3) (by simp [hc])
  · exact absurd (h2 c h3) (by simp [hc])

lemma jsTrim_data (s : String) : (jsTrim s).data = trimList s.data := rfl

lemma jsTrim_ne_empty_iff (s : String) : jsTrim s ≠ "" ↔ trimList s.data ≠ [] := by
  rw [Ne, Ne, jsTrim, mkString_eq_empty_iff]

lemma jsTrim_jsTrim_ne {s : String} (h : jsTrim s ≠ "") : jsTrim (jsTrim s) ≠ "" := by
  rw [jsTrim_ne_empty_iff] at h ⊢
  rw [jsTrim_data]
  have h2 := trimList_ne_nil_not_all _ h
  rcases List.all_eq_false.mp h2 with ⟨c, hcmem, hc⟩
  exact trimList_ne_nil_of_mem hcmem (by simpa using hc)

/-- The history invariant asserted by the specification: at most 1000
entries, no blank (empty or all-whitespace) entry, and no two consecutive
equal entries. -/
def HistoryInv (h : List String) : Prop :=
  h.length ≤ 1000 ∧ (∀ e ∈ h, e.data.all jsWhitespace = false) ∧
    List.Chain' (fun a b => a ≠ b) h

lemma executeHistoryStep_inv {h : List String} (hi : HistoryInv h) (c : String) :
    HistoryInv (executeHistoryStep h c) := by
  rw [executeHistoryStep]
  by_cases hb : jsTrim c = ""
  · rw [if_pos hb]; exact hi
  · rw [if_neg hb, addToHistory]
    by_cases hg : jsTrim (jsTrim c) = "" ∨ h.getLast? = some (jsTrim c)
    · rw [if_pos hg]; exact hi
    · rw [if_neg hg]
      push_neg at hg
      obtain ⟨hlen, hblank, hchain⟩ := hi
      have htne : (jsTrim c).data.all jsWhitespace = false := by
        rw [jsTrim_data]
        exact trimList_ne_nil_not_all _ ((jsTrim_ne_empty_iff c).mp hb)
      have hblank2 : ∀ e ∈ h ++ [jsTrim c], e.data.all jsWhitespace = false := by
        intro e he
        rcases List.mem_append.mp he with h1 | h1
        · exact hblank e h1
        · rw [List.mem_singleton] at h1; subst h1; exact htne
      have hchain2 : List.Chain' (fun a b => a ≠ b) (h ++ [jsTrim c]) := by
        rw [List.chain'_append]
        refine ⟨hchain, List.chain'_singleton _, ?_⟩
        intro x hx y hy
        rw [List.head?_cons] at hy
        injection hy with hy
        subst hy
        intro hxy
        subst hxy
        exact hg.2 hx
      by_cases hover : (h ++ [jsTrim c]).length > 1000
      · rw [if_pos hover]
        refine ⟨?_, ?_, hchain2.tail⟩
        · simp only [List.length_tail, List.length_append, List.length_singleton]
          omega
        · intro e he
          exact hblank2 e (List.tail_subset _ he)
      · rw [if_neg hover]
        exact ⟨by omega, hblank2, hchain2⟩

/-- C6: after any sequence of `execute` calls starting from the fresh
executor, the history holds at most 1000 entries, never holds a blank
(empty or all-whitespace) entry, and never holds two consecutive equal
entries; when the cap is reached a new distinct command evicts exactly
the oldest entry (FIFO); and a command equal to the last recorded entry
is not re-appended. -/
theorem history_cap_dedupe_noblanks :
    (∀ lines : List String,
      (lines.foldl executeHistoryStep []).length ≤ 1000 ∧
      (∀ e ∈ lines.foldl executeHistoryStep [], e.data.all jsWhitespace = false) ∧
      List.Chain' (fun a b => a ≠ b) (lines.foldl executeHistoryStep [])) ∧
    (∀ (h : List String) (c : String),
      h.length = 1000 → jsTrim c ≠ "" → h.getLast? ≠ some (jsTrim c) →
      executeHistoryStep h c = h.tail ++ [jsTrim c]) ∧
    (∀ (h : List String) (line : String),
      h.getLast? = some (jsTrim line) → executeHistoryStep h line = h) := by
  refine ⟨?_, ?_, ?_⟩
  · have key : ∀ (lines : List String) (h : List String), HistoryInv h →
        HistoryInv (lines.foldl executeHistoryStep h) := by
      intro lines
      induction lines with
      | nil => intro h hi; exact hi
      | cons a t ih =>
        intro h hi
        exact ih _ (executeHistoryStep_inv hi a)
    intro lines
    exact key lines [] ⟨by simp, by simp, List.chain'_nil⟩
  · intro h c hlen hne hlast
    rw [executeHistoryStep, if_neg hne, addToHistory,
      if_neg (by
        push_neg
        exact ⟨jsTrim_jsTrim_ne hne, hlast⟩),
      if_pos (by simp [hlen])]
    cases h with
    | nil => simp at hlen
    | cons a t => simp
  · intro h line hlast
    rw [executeHistoryStep]
    by_cases hb : jsTrim line = ""
    · rw [if_pos hb]
    · rw [if_neg hb, addToHistory, if_pos (Or.inr hlast)]

/-- C6 witness: eviction at the cap, dedupe of a repeated command, and the
invariants on a concrete run. -/
theorem history_cap_dedupe_noblanks_witness :
    executeHistoryStep (List.replicate 1000 "a") "b" =
      (List.replicate 1000 "a").tail ++ [jsTrim "b"] ∧
    executeHistoryStep ["echo hi"] " echo hi " = ["echo hi"] ∧
    (["ls", "ls", "pwd"].foldl executeHistoryStep []).length ≤ 1000 :=
  ⟨history_cap_dedupe_noblanks.2.1 (List.replicate 1000 "a") "b"
      (by simp) (by decide) (by decide),
   history_cap_dedupe_noblanks.2.2 ["echo hi"] " echo hi " (by decide),
   (history_cap_dedupe_noblanks.1 ["ls", "ls", "pwd"]).1⟩

-- ============================================================================
-- Path resolution lemmas and theorem  (C7)
-- ============================================================================

/-- The step of `_normalizePath`'s loop. -/
def normStep (acc : List String) (part : String) : List String :=
  if part = "." then acc else if part = ".." then acc.dropLast else acc ++ [part]

lemma normalizePath_eq (path : String) :
    normalizePath path = "/" ++ jsJoin "/" ((pathSegs path).foldl normStep []) := rfl

lemma splitOnP_not_mem (p : Char → Bool) (xs : List Char) :
    ∀ l ∈ xs.splitOnP p, ∀ a ∈ l, p a = false := by
  induction xs with
  | nil =>
    intro l hl
    rw [List.splitOnP_nil, List.mem_singleton] at hl
    subst hl; simp
  | cons x xs ih =>
    intro l hl
    rw [List.splitOnP_cons] at hl
    by_cases hx : p x
    · rw [if_pos hx] at hl
      rcases List.mem_cons.mp hl with h1 | h1
      · subst h1; simp
      · exact ih l h1
    · rw [if_neg hx] at hl
      cases hsp : xs.splitOnP p with
      | nil => exact absurd hsp (List.splitOnP_ne_nil p xs)
      | cons hd tl =>
        rw [hsp] at hl
        simp only [List.modifyHead] at hl
        rcases List.mem_cons.mp hl with h1 | h1
        · subst h1
          intro a ha
          rcases List.mem_cons.mp ha with h2 | h2
          · subst h2; simpa using hx
          · exact ih hd (by rw [hsp]; exact List.mem_cons_self _ _) a h2
        · exact ih l (by rw [hsp]; exact List.mem_cons.mpr (Or.inr h1))

lemma pathSegs_good (p : String) :
    ∀ s ∈ pathSegs p, s ≠ "" ∧ '/' ∉ s.data := by
  intro s hs
  rw [pathSegs] at hs
  rcases List.mem_filter.mp hs with ⟨hmem, hne⟩
  refine ⟨by simpa using hne, ?_⟩
  rw [jsSplit] at hmem
  rcases List.mem_map.mp hmem with ⟨l, hl, rfl⟩
  intro hin
  have := splitOnP_not_mem (· == '/') p.data l (by rwa [List.splitOn] at hl) '/'
    (by simpa using hin)
  simp at this

lemma slash_join_data (segs : List String) :
    ("/" ++ jsJoin "/" segs).data = '/' :: List.intercalate ['/'] (segs.map String.data) := by
  rw [String.data_append]; rfl

lemma map_mk_data (l : List String) : (l.map String.data).map String.mk = l := by
  induction l with
  | nil => rfl
  | cons a t ih => rw [List.map_cons, List.map_cons, ih]

lemma pathSegs_slash_join (segs : List String)
    (hg : ∀ s ∈ segs, s ≠ "" ∧ '/' ∉ s.data) :
    pathSegs ("/" ++ jsJoin "/" segs) = segs := by
  cases segs with
  | nil => rfl
  | cons a t =>
    rw [pathSegs, jsSplit, slash_join_data, List.splitOn, List.splitOnP_cons,
      if_pos (by simp), ← List.splitOn,
      List.splitOn_intercalate ((a :: t).map String.data) '/'
        (by
          intro l hl
          rcases List.mem_map.mp hl with ⟨x, hx, rfl⟩
          exact (hg x hx).2)
        (by simp)]
    rw [List.map_cons, map_mk_data, show String.mk [] = "" from rfl,
      List.filter_cons, if_neg (by simp)]
    apply List.filter_eq_self.mpr
    intro x hx
    simpa using (hg x hx).1

lemma normFold_good (parts : List String) (acc : List String) :
    ∀ s ∈ parts.foldl normStep acc, s ∈ acc ∨ (s ∈ parts ∧ s ≠ "." ∧ s ≠ "..") := by
  induction parts generalizing acc with
  | nil => intro s hs; exact Or.inl hs
  | cons p ps ih =>
    intro s hs
    rw [List.foldl_cons] at hs
    rcases ih (normStep acc p) s hs with h1 | h1
    · rw [normStep] at h1
      by_cases hp : p = "."
      · rw [if_pos hp] at h1; exact Or.inl h1
      · rw [if_neg hp] at h1
        by_cases hp2 : p = ".."
        · rw [if_pos hp2] at h1; exact Or.inl (List.dropLast_subset _ h1)
        · rw [if_neg hp2] at h1
          rcases List.mem_append.mp h1 with h2 | h2
          · exact Or.inl h2
          · rw [List.mem_singleton] at h2; subst h2
            exact Or.inr ⟨List.mem_cons_self _ _, hp, hp2⟩
    · exact Or.inr ⟨List.mem_cons.mpr (Or.inr h1.1), h1.2⟩

lemma normFold_id (parts : List String) (acc : List String)
    (h : ∀ s ∈ parts, s ≠ "." ∧ s ≠ "..") :
    parts.foldl normStep acc = acc ++ parts := by
  induction parts generalizing acc with
  | nil => simp
  | cons p ps ih =>
    rw [List.foldl_cons, normStep, if_neg (h p (by simp)).1,
      if_neg (h p (by simp)).2, ih _ (fun s hs => h s (by simp [hs]))]
    simp

lemma normalizePath_idem (path : String) :
    normalizePath (normalizePath path) = normalizePath path := by
  rw [normalizePath_eq path]
  have hNg : ∀ s ∈ (pathSegs path).foldl normStep [],
      s ≠ "" ∧ '/' ∉ s.data ∧ s ≠ "." ∧ s ≠ ".." := by
    intro s hs
    rcases normFold_good _ _ s hs with h1 | h1
    · simp at h1
    · have := pathSegs_good path s h1.1
      exact ⟨this.1, this.2, h1.2⟩
  rw [normalizePath_eq, pathSegs_slash_join _ (fun s hs => ⟨(hNg s hs).1, (hNg s hs).2.1⟩),
    normFold_id _ _ (fun s hs => (hNg s hs).2.2)]
  simp

lemma normalizePath_facts (p : String) :
    jsTrim (normalizePath p) ≠ "" ∧ jsStartsWith (normalizePath p) "~" = false ∧
    jsStartsWith (normalizePath p) "/" = true := by
  have hdata : (normalizePath p).data =
      '/' :: List.intercalate ['/'] (((pathSegs p).foldl normStep []).map String.data) := by
    rw [normalizePath_eq, slash_join_data]
  refine ⟨?_, ?_, ?_⟩
  · rw [jsTrim_ne_empty_iff]
    exact trimList_ne_nil_of_mem (by rw [hdata]; exact List.mem_cons_self _ _) (by decide)
  · rw [jsStartsWith, hdata]
    simp [startsWithL]
  · rw [jsStartsWith, hdata]
    simp [startsWithL]

lemma resolvePath_normalized (fs : VirtualFilesystem) (x : String) :
    resolvePath fs (normalizePath x) = normalizePath x := by
  obtain ⟨h1, h2, h3⟩ := normalizePath_facts x
  rw [resolvePath, if_neg h1]
  simp only [h2, h3, Bool.false_eq_true, if_false, if_true, normalizePath_idem]

/-- C7: path resolution is idempotent — for every path `p` resolving the
result of `resolvePath` again returns the same string (the session's
current directory is always an already-normalized absolute path, which
the hypothesis records) — and resolving `..` from the root directory
yields `/` (popping past root is a no-op). -/
theorem resolvePath_idempotent :
    (∀ fs : VirtualFilesystem,
      normalizePath fs.currentDirectory = fs.currentDirectory →
      ∀ p : String, resolvePath fs (resolvePath fs p) = resolvePath fs p) ∧
    (∀ fs : VirtualFilesystem, fs.currentDirectory = "/" →
      resolvePath fs ".." = "/") := by
  constructor
  · intro fs hcwd p
    by_cases hb : jsTrim p = ""
    · have hres : resolvePath fs p = fs.currentDirectory := by
        rw [resolvePath, if_pos hb]
      rw [hres, ← hcwd, resolvePath_normalized]
    · have hres : ∃ q, resolvePath fs p = normalizePath q := by
        rw [resolvePath, if_neg hb]
        dsimp only
        split <;> split <;> exact ⟨_, rfl⟩
      obtain ⟨q, hq⟩ := hres
      rw [hq, resolvePath_normalized]
  · intro fs hcwd
    rw [resolvePath, if_neg (by decide)]
    simp only [show jsStartsWith ".." "~" = false from rfl,
      show jsStartsWith ".." "/" = false from rfl,
      Bool.false_eq_true, if_false, hcwd]
    rfl

/-- C7 witness: idempotence at a concrete path and the root `..` case. -/
theorem resolvePath_idempotent_witness :
    resolvePath sampleFS (resolvePath sampleFS "d/../tmp") =
      resolvePath sampleFS "d/../tmp" ∧
    resolvePath ⟨FSNode.dir [], "/", "/home/user"⟩ ".." = "/" :=
  ⟨resolvePath_idempotent.1 sampleFS (by decide) "d/../tmp",
   resolvePath_idempotent.2 ⟨FSNode.dir [], "/", "/home/user"⟩ rfl⟩

-- ============================================================================
-- VFS write/read lemmas  (C8, also used by C4/C9)
-- ============================================================================

lemma assocGet_assocSet_self (ch : List (String × FSNode)) (k : String) (v : FSNode) :
    assocGet (assocSet ch k v) k = some v := by
  induction ch with
  | nil => simp [assocSet, assocGet]
  | cons a t ih =>
    obtain ⟨k', v'⟩ := a
    rw [assocSet]
    by_cases h : k' = k
    · rw [if_pos h, assocGet, if_pos h]
    · rw [if_neg h, assocGet, if_neg h]
      exact ih

lemma assocGet_map_upd (ch : List (String × FSNode)) (s : String) (g : FSNode → FSNode) :
    assocGet (ch.map (fun kv => if kv.1 = s then (kv.1, g kv.2) else kv)) s =
      (assocGet ch s).map g := by
  induction ch with
  | nil => simp [assocGet]
  | cons a t ih =>
    obtain ⟨k', v'⟩ := a
    rw [List.map_cons]
    dsimp only
    by_cases h : k' = s
    · subst h
      rw [if_pos rfl, assocGet, if_pos rfl, assocGet, if_pos rfl, Option.map_some']
    · rw [if_neg h, assocGet, if_neg h, assocGet, if_neg h]
      exact ih

lemma getNodeAux_append (root : FSNode) (l : List String) (a : String) :
    getNodeAux root (l ++ [a]) =
      (match getNodeAux root l with
       | some (FSNode.dir ch) => assocGet ch a
       | _ => none) := by
  induction l generalizing root with
  | nil =>
    cases root with
    | file c => rfl
    | dir ch =>
      cases h : assocGet ch a <;> simp [getNodeAux, h]
  | cons s l ih =>
    cases root with
    | file c => simp [getNodeAux]
    | dir ch =>
      cases h : assocGet ch s with
      | none => simp [getNodeAux, h]
      | some c =>
        rw [List.cons_append]
        simp only [getNodeAux, h]
        exact ih c

lemma getNodeAux_replaceAt (root : FSNode) (segs : List String) (n x : FSNode)
    (h : getNodeAux root segs = some x) :
    getNodeAux (replaceAt root segs n) segs = some n := by
  induction segs generalizing root with
  | nil => simp [replaceAt, getNodeAux]
  | cons s rest ih =>
    cases root with
    | file c => simp [getNodeAux] at h
    | dir ch =>
      rw [getNodeAux] at h
      cases hg : assocGet ch s with
      | none => rw [hg] at h; simp at h
      | some c =>
        rw [hg] at h
        rw [replaceAt, getNodeAux,
          assocGet_map_upd ch s (fun node => replaceAt node rest n), hg,
          Option.map_some']
        simp only [Option.some.injEq] at h
        exact ih c (by simpa using h)

lemma slash_join_facts (segs : List String) :
    jsTrim ("/" ++ jsJoin "/" segs) ≠ "" ∧
    jsStartsWith ("/" ++ jsJoin "/" segs) "~" = false ∧
    jsStartsWith ("/" ++ jsJoin "/" segs) "/" = true := by
  refine ⟨?_, ?_, ?_⟩
  · rw [jsTrim_ne_empty_iff]
    exact trimList_ne_nil_of_mem (by rw [slash_join_data]; exact List.mem_cons_self _ _)
      (by decide)
  · rw [jsStartsWith, slash_join_data]
    simp [startsWithL]
  · rw [jsStartsWith, slash_join_data]
    simp [startsWithL]

lemma resolvePath_shape (fs : VirtualFilesystem) (p : String) (hb : jsTrim p ≠ "") :
    ∃ q, resolvePath fs p = normalizePath q := by
  rw [resolvePath, if_neg hb]
  dsimp only
  split <;> split <;> exact ⟨_, rfl⟩

lemma pathSegs_normalizePath_good (x : String) :
    ∀ s ∈ pathSegs (normalizePath x),
      s ≠ "" ∧ '/' ∉ s.data ∧ s ≠ "." ∧ s ≠ ".." := by
  have hNg : ∀ s ∈ (pathSegs x).foldl normStep [],
      s ≠ "" ∧ '/' ∉ s.data ∧ s ≠ "." ∧ s ≠ ".." := by
    intro s hs
    rcases normFold_good _ _ s hs with h1 | h1
    · simp at h1
    · have := pathSegs_good x s h1.1
      exact ⟨this.1, this.2, h1.2⟩
  intro s hs
  rw [normalizePath_eq,
    pathSegs_slash_join _ (fun t ht => ⟨(hNg t ht).1, (hNg t ht).2.1⟩)] at hs
  exact hNg s hs

lemma resolvePath_segs_good (fs : VirtualFilesystem)
    (hcwd : normalizePath fs.currentDirectory = fs.currentDirectory) (p : String) :
    ∀ s ∈ pathSegs (resolvePath fs p),
      s ≠ "" ∧ '/' ∉ s.data ∧ s ≠ "." ∧ s ≠ ".." := by
  by_cases hb : jsTrim p = ""
  · rw [resolvePath, if_pos hb, ← hcwd]
    exact pathSegs_normalizePath_good _
  · obtain ⟨q, hq⟩ := resolvePath_shape fs p hb
    rw [hq]
    exact pathSegs_normalizePath_good q

lemma resolvePath_root_slash (fs : VirtualFilesystem) : resolvePath fs "/" = "/" := by
  rw [resolvePath, if_neg (by decide)]
  rfl

lemma parentSegsOf_eq_dropLast (fs : VirtualFilesystem)
    (hcwd : normalizePath fs.currentDirectory = fs.currentDirectory) (path : String) :
    parentSegsOf fs path = (pathSegs (resolvePath fs path)).dropLast := by
  have hg : ∀ s ∈ (pathSegs (resolvePath fs path)).dropLast,
      s ≠ "" ∧ '/' ∉ s.data ∧ s ≠ "." ∧ s ≠ ".." :=
    fun s hs => resolvePath_segs_good fs hcwd path s (List.dropLast_subset _ hs)
  rw [parentSegsOf, parentPathOf]
  by_cases hinit : (pathSegs (resolvePath fs path)).dropLast.length > 0
  · rw [if_pos hinit]
    obtain ⟨ht, hnt, habs⟩ :=
      slash_join_facts ((pathSegs (resolvePath fs path)).dropLast)
    rw [resolvePath, if_neg ht]
    simp only [hnt, habs, Bool.false_eq_true, if_false, if_true]
    rw [normalizePath_eq,
      pathSegs_slash_join _ (fun s hs => ⟨(hg s hs).1, (hg s hs).2.1⟩),
      normFold_id _ _ (fun s hs => (hg s hs).2.2), List.nil_append,
      pathSegs_slash_join _ (fun s hs => ⟨(hg s hs).1, (hg s hs).2.1⟩)]
  · rw [if_neg hinit, resolvePath_root_slash]
    rw [Nat.not_lt, Nat.le_zero, List.length_eq_zero] at hinit
    rw [hinit]
    rfl

lemma resolvePath_congr (fs fs' : VirtualFilesystem)
    (h1 : fs'.currentDirectory = fs.currentDirectory)
    (h2 : fs'.homeDirectory = fs.homeDirectory) (p : String) :
    resolvePath fs' p = resolvePath fs p := by
  rw [resolvePath, resolvePath, h1, h2]

lemma parentSegsOf_congr (fs fs' : VirtualFilesystem)
    (h1 : fs'.currentDirectory = fs.currentDirectory)
    (h2 : fs'.homeDirectory = fs.homeDirectory) (p : String) :
    parentSegsOf fs' p = parentSegsOf fs p := by
  simp only [parentSegsOf, parentPathOf, resolvePath_congr fs fs' h1 h2]

lemma writeFile_spec (fs : VirtualFilesystem)
    (hcwd : normalizePath fs.currentDirectory = fs.currentDirectory)
    (p c : String) (ch : List (String × FSNode)) (name : String)
    (hp : getParentAndName fs p = (some (FSNode.dir ch), name))
    (hnd : ∀ d, assocGet ch name ≠ some (FSNode.dir d)) :
    writeFile fs p c =
      Except.ok ⟨replaceAt fs.root (parentSegsOf fs p)
        (FSNode.dir (assocSet ch name (FSNode.file c))),
        fs.currentDirectory, fs.homeDirectory⟩ ∧
    readFile (⟨replaceAt fs.root (parentSegsOf fs p)
        (FSNode.dir (assocSet ch name (FSNode.file c))),
        fs.currentDirectory, fs.homeDirectory⟩ : VirtualFilesystem) p = Except.ok c ∧
    getParentAndName (⟨replaceAt fs.root (parentSegsOf fs p)
        (FSNode.dir (assocSet ch name (FSNode.file c))),
        fs.currentDirectory, fs.homeDirectory⟩ : VirtualFilesystem) p =
      (some (FSNode.dir (assocSet ch name (FSNode.file c))), name) := by
  simp only [getParentAndName] at hp
  cases hlast : (pathSegs (resolvePath fs p)).getLast? with
  | none => rw [hlast] at hp; simp at hp
  | some nm =>
    rw [hlast] at hp
    rw [Prod.mk.injEq] at hp
    obtain ⟨hpar, hnm⟩ := hp
    subst hnm
    have hparts : pathSegs (resolvePath fs p) = parentSegsOf fs p ++ [nm] := by
      rw [parentSegsOf_eq_dropLast fs hcwd p]
      exact (List.dropLast_append_getLast? _ hlast).symm
    have hrepl := getNodeAux_replaceAt fs.root (parentSegsOf fs p)
      (FSNode.dir (assocSet ch nm (FSNode.file c))) _ hpar
    have hres : resolvePath
        (⟨replaceAt fs.root (parentSegsOf fs p)
          (FSNode.dir (assocSet ch nm (FSNode.file c))),
          fs.currentDirectory, fs.homeDirectory⟩ : VirtualFilesystem) p =
        resolvePath fs p :=
      resolvePath_congr fs
        ⟨replaceAt fs.root (parentSegsOf fs p)
          (FSNode.dir (assocSet ch nm (FSNode.file c))),
          fs.currentDirectory, fs.homeDirectory⟩ rfl rfl p
    have hps : parentSegsOf
        (⟨replaceAt fs.root (parentSegsOf fs p)
          (FSNode.dir (assocSet ch nm (FSNode.file c))),
          fs.currentDirectory, fs.homeDirectory⟩ : VirtualFilesystem) p =
        parentSegsOf fs p :=
      parentSegsOf_congr fs
        ⟨replaceAt fs.root (parentSegsOf fs p)
          (FSNode.dir (assocSet ch nm (FSNode.file c))),
          fs.currentDirectory, fs.homeDirectory⟩ rfl rfl p
    refine ⟨?_, ?_, ?_⟩
    · cases hag : assocGet ch nm with
      | none => simp [writeFile, getParentAndName, hlast, hpar, hag]
      | some node =>
        cases node with
        | file c0 => simp [writeFile, getParentAndName, hlast, hpar, hag]
        | dir d => exact absurd hag (hnd d)
    · simp only [readFile, cat, getNodeAtPath, hres]
      rw [hparts, getNodeAux_append, hrepl]
      dsimp only
      rw [assocGet_assocSet_self]
    · simp only [getParentAndName, hres, hps]
      rw [hlast, hrepl]

/-- C8: on a valid destination (existing parent directory, target absent
or an existing file, session cwd normalized), `writeFile` then `readFile`
returns exactly the written content, and a second `writeFile` with
different content replaces the stored content entirely. -/
theorem write_read_roundtrip (fs : VirtualFilesystem)
    (hcwd : normalizePath fs.currentDirectory = fs.currentDirectory)
    (p c c2 : String) (ch : List (String × FSNode)) (name : String)
    (hp : getParentAndName fs p = (some (FSNode.dir ch), name))
    (hnd : ∀ d, assocGet ch name ≠ some (FSNode.dir d)) :
    ∃ fs1, writeFile fs p c = Except.ok fs1 ∧ readFile fs1 p = Except.ok c ∧
      ∃ fs2, writeFile fs1 p c2 = Except.ok fs2 ∧ readFile fs2 p = Except.ok c2 := by
  obtain ⟨hw1, hr1, hp1⟩ := writeFile_spec fs hcwd p c ch name hp hnd
  refine ⟨_, hw1, hr1, ?_⟩
  have hnd2 : ∀ d, assocGet (assocSet ch name (FSNode.file c)) name ≠
      some (FSNode.dir d) := by
    intro d h
    rw [assocGet_assocSet_self] at h
    cases h
  obtain ⟨hw2, hr2, _⟩ := writeFile_spec
    (⟨replaceAt fs.root (parentSegsOf fs p)
      (FSNode.dir (assocSet ch name (FSNode.file c))),
      fs.currentDirectory, fs.homeDirectory⟩ : VirtualFilesystem)
    hcwd p c2 _ name hp1 hnd2
  exact ⟨_, hw2, hr2⟩

/-- C8 witness: a concrete write/read/overwrite round-trip in `/tmp`. -/
theorem write_read_roundtrip_witness :
    ((writeFile sampleFS "/tmp/new.txt" "one").toOption.bind
      (fun fs1 => (readFile fs1 "/tmp/new.txt").toOption)) = some "one" ∧
    ((writeFile sampleFS "/tmp/new.txt" "one").toOption.bind
      (fun fs1 => (writeFile fs1 "/tmp/new.txt" "two").toOption.bind
        (fun fs2 => (readFile fs2 "/tmp/new.txt").toOption))) = some "two" := by
  obtain ⟨fs1, hw1, hr1, fs2, hw2, hr2⟩ :=
    write_read_roundtrip sampleFS (by decide) "/tmp/new.txt" "one" "two" [] "new.txt"
      rfl (fun d h => by cases h)
  rw [hw1]
  constructor
  · simp [Except.toOption, hr1]
  · simp [Except.toOption, hw2, hr2]

-- ============================================================================
-- Redirect lemmas and theorems  (C4, C9)
-- ============================================================================

lemma readFile_ok_of_fileExists (fs : VirtualFilesystem) (path : String)
    (h : fileExists fs path = true) :
    ∃ old, readFile fs path = Except.ok old := by
  rw [fileExists] at h
  cases hg : getNodeAtPath fs path with
  | none => rw [hg] at h; simp at h
  | some node =>
    cases node with
    | dir d => rw [hg] at h; simp at h
    | file c =>
      refine ⟨c, ?_⟩
      rw [readFile, cat, hg]

lemma parent_of_fileExists (fs : VirtualFilesystem)
    (hcwd : normalizePath fs.currentDirectory = fs.currentDirectory)
    (hroot : ∃ rch, fs.root = FSNode.dir rch)
    (path : String) (h : fileExists fs path = true) :
    ∃ ch name c0, getParentAndName fs path = (some (FSNode.dir ch), name) ∧
      assocGet ch name = some (FSNode.file c0) := by
  rw [fileExists] at h
  cases hg : getNodeAtPath fs path with
  | none => rw [hg] at h; simp at h
  | some node =>
    cases node with
    | dir d => rw [hg] at h; simp at h
    | file c0 =>
      obtain ⟨rch, hr⟩ := hroot
      rw [getNodeAtPath] at hg
      have hne : pathSegs (resolvePath fs path) ≠ [] := by
        intro he
        rw [he] at hg
        rw [hr] at hg
        cases hg
      cases hlast : (pathSegs (resolvePath fs path)).getLast? with
      | none => exact absurd (List.getLast?_eq_none_iff.mp hlast) hne
      | some nm =>
        have hparts : pathSegs (resolvePath fs path) = parentSegsOf fs path ++ [nm] := by
          rw [parentSegsOf_eq_dropLast fs hcwd path]
          exact (List.dropLast_append_getLast? _ hlast).symm
        rw [hparts, getNodeAux_append] at hg
        cases hpp : getNodeAux fs.root (parentSegsOf fs path) with
        | none => rw [hpp] at hg; cases hg
        | some pnode =>
          cases pnode with
          | file pc => rw [hpp] at hg; cases hg
          | dir ch =>
            rw [hpp] at hg
            refine ⟨ch, nm, c0, ?_, hg⟩
            rw [getParentAndName, hlast, hpp]

lemma readFile_writeFile (fs fs' : VirtualFilesystem)
    (hcwd : normalizePath fs.currentDirectory = fs.currentDirectory)
    (path c : String) (h : writeFile fs path c = Except.ok fs') :
    readFile fs' path = Except.ok c := by
  rw [writeFile] at h
  cases hgp : getParentAndName fs path with
  | mk parentOpt name =>
    rw [hgp] at h
    cases parentOpt with
    | none => cases h
    | some pnode =>
      cases pnode with
      | file pc => cases h
      | dir ch =>
        dsimp only at h
        cases hag : assocGet ch name with
        | none =>
          rw [hag] at h
          dsimp only at h
          simp only [Except.ok.injEq] at h
          subst h
          exact (writeFile_spec fs hcwd path c ch name hgp
            (fun d hd => by rw [hag] at hd; cases hd)).2.1
        | some node =>
          cases node with
          | dir d => rw [hag] at h; cases h
          | file c0 =>
            rw [hag] at h
            dsimp only at h
            simp only [Except.ok.injEq] at h
            subst h
            exact (writeFile_spec fs hcwd path c ch name hgp
              (fun d hd => by rw [hag] at hd; cases hd)).2.1

lemma executeWithRedirect_eq
    (execInner : String → Option String → VirtualFilesystem →
      CommandResult × VirtualFilesystem)
    (line : String) (pipeInput : Option String) (fs fs1 : VirtualFilesystem)
    (rd : Redirect) (r : CommandResult)
    (h1 : parseRedirect line = some rd) (h2 : rd.file ≠ "")
    (h3 : execInner rd.command pipeInput fs = (r, fs1)) :
    executeWithRedirect execInner line pipeInput fs =
      (if rd.append && fileExists fs1 (resolvePath fs1 rd.file) then
        match readFile fs1 (resolvePath fs1 rd.file) with
        | Except.error msg => (CommandResult.mkError ("Error: " ++ msg), fs1)
        | Except.ok current =>
          match writeFile fs1 (resolvePath fs1 rd.file)
              (current ++ "\n" ++ r.output) with
          | Except.ok fs2 => (CommandResult.mkSuccess "", fs2)
          | Except.error msg => (CommandResult.mkError ("Error: " ++ msg), fs1)
      else
        match writeFile fs1 (resolvePath fs1 rd.file) r.output with
        | Except.ok fs2 => (CommandResult.mkSuccess "", fs2)
        | Except.error msg => (CommandResult.mkError ("Error: " ++ msg), fs1)) := by
  rw [executeWithRedirect, h1]
  dsimp only
  rw [if_neg h2, h3]

/-- C4: for every executed redirect (parsed line, non-empty target) whose
inner command produced result `r` and filesystem `fs1`: in append mode with
an existing target file the executor reads the old content, writes
old ++ "\n" ++ r.output, returns the empty successful result with the
updated filesystem, and reading the target back yields exactly that
appended content; in every other case (overwrite or create) a successful
write of `r.output` makes the executor return the empty successful result
and the target then reads back as exactly `r.output`.  The inner command's
own textual output is suppressed from the visible result in both cases. -/
theorem redirect_write_semantics
    (execInner : String → Option String → VirtualFilesystem →
      CommandResult × VirtualFilesystem)
    (line : String) (pipeInput : Option String) (fs fs1 : VirtualFilesystem)
    (rd : Redirect) (r : CommandResult)
    (h1 : parseRedirect line = some rd) (h2 : rd.file ≠ "")
    (h3 : execInner rd.command pipeInput fs = (r, fs1))
    (hcwd : normalizePath fs1.currentDirectory = fs1.currentDirectory)
    (hroot : ∃ rch, fs1.root = FSNode.dir rch) :
    (rd.append = true → fileExists fs1 (resolvePath fs1 rd.file) = true →
      ∃ old fs2,
        readFile fs1 (resolvePath fs1 rd.file) = Except.ok old ∧
        writeFile fs1 (resolvePath fs1 rd.file) (old ++ "\n" ++ r.output) =
          Except.ok fs2 ∧
        executeWithRedirect execInner line pipeInput fs =
          (CommandResult.mkSuccess "", fs2) ∧
        readFile fs2 (resolvePath fs1 rd.file) =
          Except.ok (old ++ "\n" ++ r.output)) ∧
    ((rd.append = true ∧ fileExists fs1 (resolvePath fs1 rd.file) = true →
        False) →
      ∀ fs2, writeFile fs1 (resolvePath fs1 rd.file) r.output = Except.ok fs2 →
        executeWithRedirect execInner line pipeInput fs =
          (CommandResult.mkSuccess "", fs2) ∧
        readFile fs2 (resolvePath fs1 rd.file) = Except.ok r.output) := by
  constructor
  · intro hap hex
    obtain ⟨ch, name, c0, hgp, hag⟩ :=
      parent_of_fileExists fs1 hcwd hroot (resolvePath fs1 rd.file) hex
    obtain ⟨old, hold⟩ :=
      readFile_ok_of_fileExists fs1 (resolvePath fs1 rd.file) hex
    have hnd : ∀ d, assocGet ch name ≠ some (FSNode.dir d) := by
      intro d hd
      rw [hag] at hd
      cases hd
    have hws := writeFile_spec fs1 hcwd (resolvePath fs1 rd.file)
      (old ++ "\n" ++ r.output) ch name hgp hnd
    refine ⟨old,
      ⟨replaceAt fs1.root (parentSegsOf fs1 (resolvePath fs1 rd.file))
        (FSNode.dir (assocSet ch name
          (FSNode.file (old ++ "\n" ++ r.output)))),
        fs1.currentDirectory, fs1.homeDirectory⟩,
      hold, hws.1, ?_, hws.2.1⟩
    rw [executeWithRedirect_eq execInner line pipeInput fs fs1 rd r h1 h2 h3]
    rw [if_pos (by rw [hap, hex]; rfl)]
    rw [hold]
    dsimp only
    rw [hws.1]
  · intro hnot fs2 hw
    constructor
    · rw [executeWithRedirect_eq execInner line pipeInput fs fs1 rd r h1 h2 h3]
      rw [if_neg (fun hc => hnot (by simpa [Bool.and_eq_true] using hc))]
      rw [hw]
    · exact readFile_writeFile fs1 fs2 hcwd (resolvePath fs1 rd.file)
        r.output hw

/-- Witness for C4: `echo hi > /tmp/out.txt` on the sample filesystem with an
inner executor returning "hello" writes the file and returns the empty
successful result. -/
theorem redirect_write_semantics_witness :
    executeWithRedirect (fun _ _ fs => (CommandResult.mkSuccess "hello", fs))
        "echo hi > /tmp/out.txt" none sampleFS =
      (CommandResult.mkSuccess "",
        ⟨FSNode.dir [("tmp", FSNode.dir [("out.txt", FSNode.file "hello")]),
          ("d", FSNode.dir [("x", FSNode.file "hi")])], "/", "/home/user"⟩) ∧
    readFile (⟨FSNode.dir [("tmp", FSNode.dir [("out.txt", FSNode.file "hello")]),
          ("d", FSNode.dir [("x", FSNode.file "hi")])], "/", "/home/user"⟩ :
        VirtualFilesystem) "/tmp/out.txt" = Except.ok "hello" :=
  (redirect_write_semantics
      (fun _ _ fs => (CommandResult.mkSuccess "hello", fs))
      "echo hi > /tmp/out.txt" none sampleFS sampleFS
      ⟨"echo hi", "/tmp/out.txt", false⟩ (CommandResult.mkSuccess "hello")
      (by decide) (by decide) rfl rfl ⟨_, rfl⟩).2
    (fun hc => Bool.noConfusion hc.1)
    ⟨FSNode.dir [("tmp", FSNode.dir [("out.txt", FSNode.file "hello")]),
      ("d", FSNode.dir [("x", FSNode.file "hi")])], "/", "/home/user"⟩
    rfl

/-- C9: when the inner command of a non-append redirect returns a failed
CommandResult `r` (success = false), the executor still writes `r.output`
(for example the command's error message) into the destination file, and
whenever that write succeeds the overall visible result is the empty
successful result, with the target file reading back as `r.output` — the
inner command's failure is never reflected in the visible result. -/
theorem redirect_ignores_command_failure
    (execInner : String → Option String → VirtualFilesystem →
      CommandResult × VirtualFilesystem)
    (line : String) (pipeInput : Option String) (fs fs1 : VirtualFilesystem)
    (rd : Redirect) (r : CommandResult)
    (h1 : parseRedirect line = some rd) (h2 : rd.file ≠ "")
    (h3 : execInner rd.command pipeInput fs = (r, fs1))
    (hcwd : normalizePath fs1.currentDirectory = fs1.currentDirectory)
    (hfail : r.success = false) (hna : rd.append = false)
    (fs2 : VirtualFilesystem)
    (hw : writeFile fs1 (resolvePath fs1 rd.file) r.output = Except.ok fs2) :
    executeWithRedirect execInner line pipeInput fs =
      (CommandResult.mkSuccess "", fs2) ∧
    (CommandResult.mkSuccess "").success = true ∧
    readFile fs2 (resolvePath fs1 rd.file) = Except.ok r.output := by
  refine ⟨?_, rfl, readFile_writeFile fs1 fs2 hcwd (resolvePath fs1 rd.file)
    r.output hw⟩
  rw [executeWithRedirect_eq execInner line pipeInput fs fs1 rd r h1 h2 h3]
  rw [if_neg (by rw [hna]; exact fun hc => Bool.noConfusion hc)]
  rw [hw]

/-- Witness for C9: an inner executor that fails with message "boom" still
gets its output written to `/tmp/err.txt` and the redirect reports the
empty successful result. -/
theorem redirect_ignores_command_failure_witness :
    executeWithRedirect (fun _ _ fs => (CommandResult.mkError "boom", fs))
        "fail > /tmp/err.txt" none sampleFS =
      (CommandResult.mkSuccess "",
        ⟨FSNode.dir [("tmp", FSNode.dir [("err.txt", FSNode.file "boom")]),
          ("d", FSNode.dir [("x", FSNode.file "hi")])], "/", "/home/user"⟩) ∧
    (CommandResult.mkSuccess "").success = true ∧
    readFile (⟨FSNode.dir [("tmp", FSNode.dir [("err.txt", FSNode.file "boom")]),
          ("d", FSNode.dir [("x", FSNode.file "hi")])], "/", "/home/user"⟩ :
        VirtualFilesystem) "/tmp/err.txt" = Except.ok "boom" :=
  redirect_ignores_command_failure
    (fun _ _ fs => (CommandResult.mkError "boom", fs))
    "fail > /tmp/err.txt" none sampleFS sampleFS
    ⟨"fail", "/tmp/err.txt", false⟩ (CommandResult.mkError "boom")
    (by decide) (by decide) rfl rfl rfl rfl
    ⟨FSNode.dir [("tmp", FSNode.dir [("err.txt", FSNode.file "boom")]),
      ("d", FSNode.dir [("x", FSNode.file "hi")])], "/", "/home/user"⟩
    rfl

lemma jsJoin_jsSplit (s : String) : jsJoin "\n" (jsSplit s '\n') = s := by
  cases s with
  | mk d =>
    rw [jsSplit, jsJoin, List.map_map]
    have h1 : (String.data ∘ String.mk) = id := rfl
    rw [h1, List.map_id]
    have h2 : ("\n" : String).data = ['\n'] := rfl
    rw [h2, List.intercalate_splitOn]

/-- C10: `tail` with a line count of 0 — given as `-n 0` or as the fused
`-0` — returns the entire input unchanged (JS `slice(-0)` is `slice(0)`),
both for piped input and for a readable file argument. -/
theorem tail_zero (fs : VirtualFilesystem) :
    (∀ input : String,
      tail ["-n", "0"] fs (some input) = CommandResult.mkSuccess input ∧
      tail ["-0"] fs (some input) = CommandResult.mkSuccess input) ∧
    (∀ (args : List String) (path : String) (rest : List String)
        (content : String),
      tailParseArgs args 10 [] = Except.ok (0, path :: rest) →
      cat fs path = Except.ok content →
      tail args fs none = CommandResult.mkSuccess content) := by
  constructor
  · intro input
    constructor
    · have h0 : tailParseArgs ["-n", "0"] 10 [] = Except.ok (0, []) := rfl
      rw [tail, h0]
      dsimp only
      rw [jsSliceNeg, if_pos rfl, jsJoin_jsSplit]
    · have h0 : tailParseArgs ["-0"] 10 [] = Except.ok (0, []) := rfl
      rw [tail, h0]
      dsimp only
      rw [jsSliceNeg, if_pos rfl, jsJoin_jsSplit]
  · intro args path rest content hp hc
    rw [tail, hp]
    dsimp only
    rw [hc]
    dsimp only
    rw [jsSliceNeg, if_pos rfl, jsJoin_jsSplit]

/-- Witness for C10: on "a\nb\nc" both zero forms return the full text, and
on file /d/x (content "hi") tail -n 0 returns "hi" whole. -/
theorem tail_zero_witness :
    (tail ["-n", "0"] sampleFS (some "a\nb\nc") =
        CommandResult.mkSuccess "a\nb\nc" ∧
      tail ["-0"] sampleFS (some "a\nb\nc") =
        CommandResult.mkSuccess "a\nb\nc") ∧
    (tailParseArgs ["-n", "0", "/d/x"] 10 [] = Except.ok (0, ["/d/x"]) ∧
      cat sampleFS "/d/x" = Except.ok "hi" ∧
      tail ["-n", "0", "/d/x"] sampleFS none = CommandResult.mkSuccess "hi") :=
  ⟨(tail_zero sampleFS).1 "a\nb\nc",
   rfl, rfl,
   (tail_zero sampleFS).2 ["-n", "0", "/d/x"] "/d/x" [] "hi" rfl rfl⟩

/-- C1 counterexample: a piped grep invocation with zero matching lines
returns a result with success = true and exit code 0 (lines 115–131 of
text.js return CommandResult.success unconditionally on the pipe branch),
refuting the claim that every zero-match grep is non-success with a
nonzero exit code. -/
theorem grep_pipe_zero_matches_counterexample :
    grep (regexLitTest "zzz") ["zzz"] sampleFS (some "abc") =
      CommandResult.mk "" true 0 := by decide

/-- C1 (amended): a grep invocation with a non-empty pattern and zero
matching lines returns empty output with no error text in both branches,
but the exit status differs: with piped input the result is successful
with exit code 0, while with file arguments it is non-success with exit
code 1. -/
theorem grep_zero_matches
    (test : String → Bool) (args : List String) (fs : VirtualFilesystem)
    (pattern : String) (files : List String)
    (hargs : args ≠ [])
    (hpos : (parseFlags args).2 = pattern :: files)
    (hpat : pattern ≠ "") :
    (∀ input : String,
      grepPipeResults test ((parseFlags args).1.contains 'n')
        ((parseFlags args).1.contains 'v') input = [] →
      grep test args fs (some input) = CommandResult.mk "" true 0) ∧
    (files ≠ [] →
      grepFileResultsE test ((parseFlags args).1.contains 'n')
        ((parseFlags args).1.contains 'v') ((parseFlags args).1.contains 'r')
        fs files = Except.ok [] →
      grep test args fs none = CommandResult.mk "" false 1) := by
  have h1 : ¬(args.length = 0) := fun hc => hargs (List.length_eq_zero.mp hc)
  constructor
  · intro input hz
    rw [grep, if_neg h1]
    dsimp only
    rw [hpos]
    dsimp only
    rw [if_neg hpat]
    rw [hz]
    rfl
  · intro hf hz
    rw [grep, if_neg h1]
    dsimp only
    rw [hpos]
    dsimp only
    rw [if_neg hpat]
    rw [if_neg (fun hc => hf (List.length_eq_zero.mp hc))]
    rw [hz]
    rfl

/-- Witness for C1: with pattern "zzz" matching nothing, the piped form on
"ab" yields (output "", success, exit 0) and the file form on /d/x yields
(output "", non-success, exit 1). -/
theorem grep_zero_matches_witness :
    grep (regexLitTest "zzz") ["zzz", "/d/x"] sampleFS (some "ab") =
      CommandResult.mk "" true 0 ∧
    grep (regexLitTest "zzz") ["zzz", "/d/x"] sampleFS none =
      CommandResult.mk "" false 1 := by
  have h := grep_zero_matches (regexLitTest "zzz") ["zzz", "/d/x"] sampleFS
    "zzz" ["/d/x"] (by decide) (by decide) (by decide)
  exact ⟨h.1 "ab" (by decide), h.2 (by decide) rfl⟩
